import Mathlib

/-!
Verification of the callbackless promise library (src/callbackless.js).

The development has two layers, both translated from the source:

Layer A ("cell-local"): the closure state of the function promise() at
lines 20 to 188, with user callbacks kept opaque (identified by numbers).
Each operation additionally reports the list of callback invocations it
performs, with their payloads, so that ordering and late-subscription
claims can be stated.

Layer B ("heap"): a heap of cells in which the closures created by the
combinators unit, fmap, join, flatMap and liftA (lines 201 to 360) are
defunctionalised, one constructor per closure of the source, together with
a fueled interpreter that performs the synchronous, reentrant listener
drains of the source.
-/

namespace Callbackless

/-- States of a promise cell, from line 21 of callbackless.js:
enum(PENDING, SUCCEEDED, FAILED). -/
inductive PState where
  | PENDING
  | SUCCEEDED
  | FAILED
deriving DecidableEq, Repr

/-- Untyped values that flow through the promise combinators.  A value can
itself be a reference to a promise cell (vcell), which is how a promise of
a promise is represented in the heap layer. -/
inductive Value where
  | vnull
  | vbool (b : Bool)
  | vint (n : Int)
  | vstr (s : String)
  | vcell (i : Nat)
deriving DecidableEq, Repr

/-- Default errorToData conversion of a cell (lines 38 to 40 of the source):
it returns null. -/
def defaultErrorToData (_e : Value) : Value := Value.vnull

/-- Message thrown by the two notify entry points (lines 52 and 74). -/
def notPendingMsg : String := "The promise is not in PENDING state"

/-- Message thrown by getData on a PENDING cell (line 168). -/
def pendingDataMsg : String := "The promise is in PENDING state"

/-! ## Layer A: one cell, opaque callbacks -/

/-- Closure state of one promise (lines 20 to 27 of the source).  Callbacks
are opaque and identified by a number; the operations below report which
callbacks get invoked and with which payloads. -/
structure ACell where
  state : PState
  data : Option Value
  error : Option Value
  successListeners : List Nat
  failureListeners : List Nat
  finishListeners : List Nat
  errorToData : Value → Value

/-- promise(options): a fresh PENDING cell (lines 20 to 27).  The options
record carries only the errorToData conversion; passing no options in the
source installs defaultErrorToData (line 27). -/
def promiseA (etd : Value → Value) : ACell :=
  { state := .PENDING, data := none, error := none,
    successListeners := [], failureListeners := [], finishListeners := [],
    errorToData := etd }

/-- Invocation records: which opaque callback ran, on which channel, and
with which arguments.  Finish callbacks receive the triple
(state, data, error) as on lines 60 and 82 of the source. -/
inductive AInv where
  | invS (k : Nat) (d : Value)
  | invF (k : Nat) (e : Value)
  | invFin (k : Nat) (s : PState) (d : Option Value) (e : Option Value)
deriving DecidableEq, Repr

/-- Translation of the entry point notifySuccess (lines 50 to 62): throw
unless PENDING; set the state to SUCCEEDED and store the data; then invoke
every success listener in order with the data, followed by every finish
listener in order with the current (state, data, error) triple.  The
listener arrays are not emptied by the source, so they are kept. -/
def notifySuccessA (d : Value) (c : ACell) : Except String (ACell × List AInv) :=
  if c.state ≠ .PENDING then .error notPendingMsg
  else
    .ok ({ c with state := .SUCCEEDED, data := some d },
      c.successListeners.map (fun k => .invS k d) ++
      c.finishListeners.map (fun k => .invFin k .SUCCEEDED (some d) c.error))

/-- Translation of the entry point notifyFailure (lines 72 to 84),
symmetric to notifySuccessA on the failure channel. -/
def notifyFailureA (e : Value) (c : ACell) : Except String (ACell × List AInv) :=
  if c.state ≠ .PENDING then .error notPendingMsg
  else
    .ok ({ c with state := .FAILED, error := some e },
      c.failureListeners.map (fun k => .invF k e) ++
      c.finishListeners.map (fun k => .invFin k .FAILED c.data (some e)))

/-- Translation of registerSuccessListener (lines 97 to 104): append when
PENDING; invoke immediately with the stored data when SUCCEEDED; do
nothing when FAILED. -/
def registerSuccessListenerA (k : Nat) (c : ACell) : ACell × List AInv :=
  if c.state = .PENDING then
    ({ c with successListeners := c.successListeners ++ [k] }, [])
  else if c.state = .SUCCEEDED then (c, [.invS k (c.data.getD .vnull)])
  else (c, [])

/-- Translation of registerFailureListener (lines 117 to 124). -/
def registerFailureListenerA (k : Nat) (c : ACell) : ACell × List AInv :=
  if c.state = .PENDING then
    ({ c with failureListeners := c.failureListeners ++ [k] }, [])
  else if c.state = .FAILED then (c, [.invF k (c.error.getD .vnull)])
  else (c, [])

/-- Translation of registerFinishListener (lines 137 to 144): append when
PENDING; otherwise invoke immediately with the (state, data, error)
triple. -/
def registerFinishListenerA (k : Nat) (c : ACell) : ACell × List AInv :=
  if c.state = .PENDING then
    ({ c with finishListeners := c.finishListeners ++ [k] }, [])
  else (c, [.invFin k c.state c.data c.error])

/-- Translation of getState (lines 152 to 154). -/
def getStateA (c : ACell) : PState := c.state

/-- Translation of getData (lines 166 to 174): throw when PENDING, return
the data when SUCCEEDED, and return errorToData applied to the error when
FAILED. -/
def getDataA (c : ACell) : Except String Value :=
  if c.state = .PENDING then .error pendingDataMsg
  else if c.state = .SUCCEEDED then .ok (c.data.getD .vnull)
  else .ok (c.errorToData (c.error.getD .vnull))

/-- The operations of the public and protected surface of one cell that can
change it (lines 176 to 187); getState and getData are pure reads. -/
inductive AOp where
  | notifyS (d : Value)
  | notifyF (e : Value)
  | regS (k : Nat)
  | regF (k : Nat)
  | regFin (k : Nat)

/-- Apply one operation to a cell. -/
def applyA : AOp → ACell → Except String (ACell × List AInv)
  | .notifyS d, c => notifySuccessA d c
  | .notifyF e, c => notifyFailureA e c
  | .regS k, c => .ok (registerSuccessListenerA k c)
  | .regF k, c => .ok (registerFailureListenerA k c)
  | .regFin k, c => .ok (registerFinishListenerA k c)

/-! ### Claims about one cell -/

/-- C1: each of the two resolve entry points faults unless the state is
PENDING; from PENDING, notifySuccess moves the cell to SUCCEEDED and
notifyFailure to FAILED; after a successful call every further resolve
call faults, and no operation of the surface changes the state of a
terminal cell. -/
theorem notify_single_transition (c : ACell) (d e : Value) :
    (c.state = .PENDING →
      ∃ c1 t1, notifySuccessA d c = .ok (c1, t1) ∧ c1.state = .SUCCEEDED) ∧
    (c.state = .PENDING →
      ∃ c2 t2, notifyFailureA e c = .ok (c2, t2) ∧ c2.state = .FAILED) ∧
    (c.state ≠ .PENDING →
      notifySuccessA d c = .error notPendingMsg ∧
      notifyFailureA e c = .error notPendingMsg) ∧
    (∀ c1 t1, notifySuccessA d c = .ok (c1, t1) →
      ∀ d2 e2, notifySuccessA d2 c1 = .error notPendingMsg ∧
               notifyFailureA e2 c1 = .error notPendingMsg) ∧
    (∀ c2 t2, notifyFailureA e c = .ok (c2, t2) →
      ∀ d2 e2, notifySuccessA d2 c2 = .error notPendingMsg ∧
               notifyFailureA e2 c2 = .error notPendingMsg) ∧
    (∀ op c3 t3, c.state ≠ .PENDING → applyA op c = .ok (c3, t3) →
      c3.state = c.state) := by
  refine ⟨?_, ?_, ?_, ?_, ?_, ?_⟩
  · intro h
    refine ⟨{ c with state := .SUCCEEDED, data := some d },
      c.successListeners.map (fun k => .invS k d) ++
        c.finishListeners.map (fun k => .invFin k .SUCCEEDED (some d) c.error),
      ?_, rfl⟩
    simp [notifySuccessA, h]
  · intro h
    refine ⟨{ c with state := .FAILED, error := some e },
      c.failureListeners.map (fun k => .invF k e) ++
        c.finishListeners.map (fun k => .invFin k .FAILED c.data (some e)),
      ?_, rfl⟩
    simp [notifyFailureA, h]
  · intro h
    constructor <;> simp [notifySuccessA, notifyFailureA, h]
  · intro c1 t1 h d2 e2
    by_cases hp : c.state = .PENDING
    · simp only [notifySuccessA, hp] at h
      simp at h
      constructor <;>
        simp [notifySuccessA, notifyFailureA, ← h.1]
    · simp [notifySuccessA, hp] at h
  · intro c2 t2 h d2 e2
    by_cases hp : c.state = .PENDING
    · simp only [notifyFailureA, hp] at h
      simp at h
      constructor <;>
        simp [notifySuccessA, notifyFailureA, ← h.1]
    · simp [notifyFailureA, hp] at h
  · intro op c3 t3 hs h
    cases op with
    | notifyS d2 => rw [applyA, notifySuccessA, if_pos hs] at h; simp at h
    | notifyF e2 => rw [applyA, notifyFailureA, if_pos hs] at h; simp at h
    | regS k =>
        simp only [applyA, registerSuccessListenerA, if_neg hs, Except.ok.injEq] at h
        split at h <;> (simp only [Prod.mk.injEq] at h; rw [← h.1])
    | regF k =>
        simp only [applyA, registerFailureListenerA, if_neg hs, Except.ok.injEq] at h
        split at h <;> (simp only [Prod.mk.injEq] at h; rw [← h.1])
    | regFin k =>
        simp only [applyA, registerFinishListenerA, if_neg hs, Except.ok.injEq,
          Prod.mk.injEq] at h
        rw [← h.1]

/-- Witness for C1 at a concrete cell: the fresh default cell is PENDING
and a first success notification moves it to SUCCEEDED. -/
theorem notify_single_transition_witness :
    ∃ c1 t1, notifySuccessA (.vint 1) (promiseA defaultErrorToData) = .ok (c1, t1) ∧
      c1.state = .SUCCEEDED :=
  (notify_single_transition (promiseA defaultErrorToData) (.vint 1) (.vint 2)).1 rfl

/-- C3: registering succeed on a SUCCEEDED cell, fail on a FAILED cell, or
finish on a terminal cell invokes the callback immediately and
synchronously with exactly the payload an early registration would have
received; succeed on a FAILED cell and fail on a SUCCEEDED cell never
invoke the callback. -/
theorem late_subscription_parity (c : ACell) (hp : c.state = .PENDING)
    (d e : Value) (k : Nat) :
    (∀ c1 t1, notifySuccessA d c = .ok (c1, t1) →
      registerSuccessListenerA k c1 = (c1, [.invS k d]) ∧
      registerFinishListenerA k c1 = (c1, [.invFin k .SUCCEEDED (some d) c.error]) ∧
      registerFailureListenerA k c1 = (c1, []) ∧
      (∀ cE tE, notifySuccessA d ((registerSuccessListenerA k c).1) = .ok (cE, tE) →
        .invS k d ∈ tE) ∧
      (∀ cE tE, notifySuccessA d ((registerFinishListenerA k c).1) = .ok (cE, tE) →
        .invFin k .SUCCEEDED (some d) c.error ∈ tE)) ∧
    (∀ c2 t2, notifyFailureA e c = .ok (c2, t2) →
      registerFailureListenerA k c2 = (c2, [.invF k e]) ∧
      registerFinishListenerA k c2 = (c2, [.invFin k .FAILED c.data (some e)]) ∧
      registerSuccessListenerA k c2 = (c2, []) ∧
      (∀ cE tE, notifyFailureA e ((registerFailureListenerA k c).1) = .ok (cE, tE) →
        .invF k e ∈ tE) ∧
      (∀ cE tE, notifyFailureA e ((registerFinishListenerA k c).1) = .ok (cE, tE) →
        .invFin k .FAILED c.data (some e) ∈ tE)) := by
  constructor
  · intro c1 t1 h
    rw [notifySuccessA, if_neg (by simp [hp])] at h
    simp only [Except.ok.injEq, Prod.mk.injEq] at h
    obtain ⟨hc, ht⟩ := h
    subst hc
    refine ⟨?_, ?_, ?_, ?_, ?_⟩
    · simp [registerSuccessListenerA]
    · simp [registerFinishListenerA]
    · simp [registerFailureListenerA]
    · intro cE tE hE
      simp only [registerSuccessListenerA, if_pos hp] at hE
      rw [notifySuccessA, if_neg (by simp [hp])] at hE
      simp only [Except.ok.injEq, Prod.mk.injEq] at hE
      rw [← hE.2]
      simp
    · intro cE tE hE
      simp only [registerFinishListenerA, if_pos hp] at hE
      rw [notifySuccessA, if_neg (by simp [hp])] at hE
      simp only [Except.ok.injEq, Prod.mk.injEq] at hE
      rw [← hE.2]
      simp
  · intro c2 t2 h
    rw [notifyFailureA, if_neg (by simp [hp])] at h
    simp only [Except.ok.injEq, Prod.mk.injEq] at h
    obtain ⟨hc, ht⟩ := h
    subst hc
    refine ⟨?_, ?_, ?_, ?_, ?_⟩
    · simp [registerFailureListenerA]
    · simp [registerFinishListenerA]
    · simp [registerSuccessListenerA]
    · intro cE tE hE
      simp only [registerFailureListenerA, if_pos hp] at hE
      rw [notifyFailureA, if_neg (by simp [hp])] at hE
      simp only [Except.ok.injEq, Prod.mk.injEq] at hE
      rw [← hE.2]
      simp
    · intro cE tE hE
      simp only [registerFinishListenerA, if_pos hp] at hE
      rw [notifyFailureA, if_neg (by simp [hp])] at hE
      simp only [Except.ok.injEq, Prod.mk.injEq] at hE
      rw [← hE.2]
      simp

/-- Witness for C3 at a concrete cell: resolving a fresh cell with 7 and
then registering callback 3 on the success channel invokes it immediately
with 7. -/
theorem late_subscription_parity_witness :
    registerSuccessListenerA 3
        { promiseA defaultErrorToData with state := .SUCCEEDED, data := some (.vint 7) } =
      ({ promiseA defaultErrorToData with state := .SUCCEEDED, data := some (.vint 7) },
        [.invS 3 (.vint 7)]) :=
  ((late_subscription_parity (promiseA defaultErrorToData) rfl (.vint 7) (.vint 0) 3).1
    _ _ rfl).1

/-- C7: the data accessor faults when the cell is PENDING, returns the
stored data when SUCCEEDED, and returns errorToData applied to the error
when FAILED; in particular a cell that failed with the error "boom" under
the default errorToData yields null without faulting. -/
theorem data_accessor (c : ACell) (e : Value) :
    (c.state = .PENDING → getDataA c = .error pendingDataMsg) ∧
    (c.state = .SUCCEEDED → getDataA c = .ok (c.data.getD .vnull)) ∧
    (c.state = .FAILED → getDataA c = .ok (c.errorToData (c.error.getD .vnull))) ∧
    (c.state = .PENDING → ∀ c2 t2, notifyFailureA e c = .ok (c2, t2) →
      getDataA c2 = .ok (c2.errorToData e)) ∧
    (∀ c3 t3, notifyFailureA (.vstr "boom") (promiseA defaultErrorToData) = .ok (c3, t3) →
      getDataA c3 = .ok .vnull) := by
  refine ⟨?_, ?_, ?_, ?_, ?_⟩
  · intro h; simp [getDataA, h]
  · intro h; simp [getDataA, h]
  · intro h; simp [getDataA, h]
  · intro hp c2 t2 h
    rw [notifyFailureA, if_neg (by simp [hp])] at h
    simp only [Except.ok.injEq, Prod.mk.injEq] at h
    rw [← h.1]
    simp [getDataA]
  · intro c3 t3 h
    rw [notifyFailureA, if_neg (by simp [promiseA])] at h
    simp only [Except.ok.injEq, Prod.mk.injEq] at h
    rw [← h.1]
    rfl

/-- Witness for C7 at a concrete cell: the fresh default cell faults on
data access, and once failed with "boom" it returns null. -/
theorem data_accessor_witness :
    getDataA (promiseA defaultErrorToData) = .error pendingDataMsg ∧
    getDataA { promiseA defaultErrorToData with
      state := .FAILED, error := some (.vstr "boom") } = .ok .vnull :=
  ⟨(data_accessor (promiseA defaultErrorToData) .vnull).1 rfl,
   (data_accessor (promiseA defaultErrorToData) (.vstr "boom")).2.2.2.2 _ _ rfl⟩

/-- Counterexample to C8: after resolving a cell that holds one success
listener, the success registry still holds that callback; the source
iterates the listener arrays at resolution but never empties them, so a
terminal cell does not have empty registries. -/
theorem registry_not_emptied_cex :
    ∃ c1 t1,
      notifySuccessA (.vint 1)
        ((registerSuccessListenerA 0 (promiseA defaultErrorToData)).1) = .ok (c1, t1) ∧
      c1.state = .SUCCEEDED ∧ c1.successListeners = [0] ∧
      c1.successListeners ≠ [] :=
  ⟨_, _, rfl, rfl, rfl, by decide⟩

/-- C8 (amended): at the matching transition every registry entry gives
rise to exactly one invocation, in order; the registries of the cell are
retained, not emptied; and no listener is ever stored on a terminal cell,
since registration on a terminal cell leaves the cell unchanged. -/
theorem registry_discipline (c : ACell) (d e : Value) (k : Nat) :
    (c.state = .PENDING → ∀ c1 t1, notifySuccessA d c = .ok (c1, t1) →
      t1 = c.successListeners.map (fun j => .invS j d) ++
           c.finishListeners.map (fun j => .invFin j .SUCCEEDED (some d) c.error) ∧
      c1.successListeners = c.successListeners ∧
      c1.failureListeners = c.failureListeners ∧
      c1.finishListeners = c.finishListeners) ∧
    (c.state = .PENDING → ∀ c2 t2, notifyFailureA e c = .ok (c2, t2) →
      t2 = c.failureListeners.map (fun j => .invF j e) ++
           c.finishListeners.map (fun j => .invFin j .FAILED c.data (some e)) ∧
      c2.successListeners = c.successListeners ∧
      c2.failureListeners = c.failureListeners ∧
      c2.finishListeners = c.finishListeners) ∧
    (c.state ≠ .PENDING →
      (registerSuccessListenerA k c).1 = c ∧
      (registerFailureListenerA k c).1 = c ∧
      (registerFinishListenerA k c).1 = c) := by
  refine ⟨?_, ?_, ?_⟩
  · intro hp c1 t1 h
    rw [notifySuccessA, if_neg (by simp [hp])] at h
    simp only [Except.ok.injEq, Prod.mk.injEq] at h
    rw [← h.1, ← h.2]
    simp
  · intro hp c2 t2 h
    rw [notifyFailureA, if_neg (by simp [hp])] at h
    simp only [Except.ok.injEq, Prod.mk.injEq] at h
    rw [← h.1, ← h.2]
    simp
  · intro hs
    refine ⟨?_, ?_, ?_⟩
    · rw [registerSuccessListenerA, if_neg hs]; split <;> rfl
    · rw [registerFailureListenerA, if_neg hs]; split <;> rfl
    · rw [registerFinishListenerA, if_neg hs]

/-- Witness for C8 (amended) at a concrete cell: a terminal cell is left
unchanged by a success registration. -/
theorem registry_discipline_witness :
    (registerSuccessListenerA 5
      { promiseA defaultErrorToData with state := .SUCCEEDED, data := some (.vint 7) }).1 =
    { promiseA defaultErrorToData with state := .SUCCEEDED, data := some (.vint 7) } :=
  ((registry_discipline
    { promiseA defaultErrorToData with state := .SUCCEEDED, data := some (.vint 7) }
    .vnull .vnull 5).2.2 (by simp)).1

/-- C9: registration appends to the matching registry, so list order is
registration order; at resolution the invocation trace is the matching
registry mapped in order, followed by the finish registry mapped in order,
hence every success (or failure) listener fires strictly before every
finish listener of the cell. -/
theorem listener_ordering (c : ACell) (d e : Value) (k : Nat) :
    (c.state = .PENDING →
      (registerSuccessListenerA k c).1.successListeners = c.successListeners ++ [k] ∧
      (registerFailureListenerA k c).1.failureListeners = c.failureListeners ++ [k] ∧
      (registerFinishListenerA k c).1.finishListeners = c.finishListeners ++ [k]) ∧
    (∀ c1 t1, notifySuccessA d c = .ok (c1, t1) →
      t1 = c.successListeners.map (fun j => .invS j d) ++
           c.finishListeners.map (fun j => .invFin j .SUCCEEDED (some d) c.error)) ∧
    (∀ c2 t2, notifyFailureA e c = .ok (c2, t2) →
      t2 = c.failureListeners.map (fun j => .invF j e) ++
           c.finishListeners.map (fun j => .invFin j .FAILED c.data (some e))) := by
  refine ⟨?_, ?_, ?_⟩
  · intro hp
    refine ⟨?_, ?_, ?_⟩ <;> simp [registerSuccessListenerA,
      registerFailureListenerA, registerFinishListenerA, hp]
  · intro c1 t1 h
    by_cases hp : c.state = .PENDING
    · rw [notifySuccessA, if_neg (by simp [hp])] at h
      simp only [Except.ok.injEq, Prod.mk.injEq] at h
      exact h.2.symm
    · rw [notifySuccessA, if_pos hp] at h
      simp at h
  · intro c2 t2 h
    by_cases hp : c.state = .PENDING
    · rw [notifyFailureA, if_neg (by simp [hp])] at h
      simp only [Except.ok.injEq, Prod.mk.injEq] at h
      exact h.2.symm
    · rw [notifyFailureA, if_pos hp] at h
      simp at h

/-- Witness for C9 at a concrete cell: with success listeners 1 and 2 and
finish listener 9 registered in that order, resolution invokes 1 then 2 on
the success channel and only afterwards 9 on the finish channel. -/
theorem listener_ordering_witness :
    ∀ c1 t1,
      notifySuccessA (.vint 4)
        { promiseA defaultErrorToData with
          successListeners := [1, 2], finishListeners := [9] } = .ok (c1, t1) →
      t1 = [.invS 1 (.vint 4), .invS 2 (.vint 4),
            .invFin 9 .SUCCEEDED (some (.vint 4)) none] := by
  intro c1 t1 h
  have := (listener_ordering
    { promiseA defaultErrorToData with
      successListeners := [1, 2], finishListeners := [9] }
    (.vint 4) .vnull 0).2.1 c1 t1 h
  simpa [promiseA] using this

/-! ## Layer B: heap of cells, defunctionalised combinator closures

The combinators of the source (unit, fmap, join, flatMap, liftA) wire
fresh cells to existing ones by registering closures.  Here every closure
that the source registers gets one constructor, carrying exactly its
captured environment, and a fueled interpreter performs the synchronous
and reentrant listener drains.  Fuel is spent only when entering a notify
or a register call, which bounds the depth of the reentrant call stack,
exactly like the host language call stack does. -/

mutual
/-- Cell-building programs over the surface of the module: promise()
(line 20), unit (lines 201 to 205), a producer that resolves a fresh cell
failed through the protected entry point (the pattern of lines 72 to 84),
fmap (lines 266 to 278) and join (lines 287 to 303). -/
inductive Prog where
  | newPromise : Prog
  | unitP (v : Value) : Prog
  | failedP (e : Value) : Prog
  | fmapP (fn : FmapFn) (p : Prog) : Prog
  | joinP (p : Prog) : Prog

/-- The function argument of fmap.  In the source it is a single untyped
parameter f; it is either a plain function on values (the direct fmap
usage) or a promise-returning function (the usage inside flatMap, line
319, where f builds a new cell). -/
inductive FmapFn where
  | pureF (f : Value → Value) : FmapFn
  | bindF (f : Value → Prog) : FmapFn
end

/-- Success-channel closures of the source: fmapS is the callback at lines
269 to 271, joinOuterS the outer callback at lines 290 to 298, joinInnerS
the inner callback at lines 292 to 294.  Each carries the cell ids it
captures. -/
inductive SListener where
  | fmapS (fn : FmapFn) (r : Nat)
  | joinOuterS (t : Nat)
  | joinInnerS (t : Nat)

/-- Failure-channel closures of the source: fmapF at lines 272 to 274,
joinOuterF at lines 299 to 301, joinInnerF at lines 295 to 297. -/
inductive FListener where
  | fmapF (r : Nat)
  | joinOuterF (t : Nat)
  | joinInnerF (t : Nat)

/-- Finish-channel closures of the source: the liftA callback at lines 346
to 354, which captures the shared environment of one liftA application. -/
inductive FinListener where
  | liftAFin (env : Nat)

/-- One cell of the heap: the closure state of promise() (lines 20 to 27)
with the listener registries holding defunctionalised closures. -/
structure CellB where
  state : PState
  data : Option Value
  error : Option Value
  succL : List SListener
  failL : List FListener
  finL : List FinListener
  errorToData : Value → Value

/-- promise(options) in the heap layer. -/
def freshCell (etd : Value → Value) : CellB :=
  { state := .PENDING, data := none, error := none,
    succL := [], failL := [], finL := [], errorToData := etd }

/-- The mutable environment shared by the callbacks of one liftA
application (lines 338 to 355): the argument count, the finished counter,
the collected input cells, the lifted function and the result cell. -/
structure LiftAEnv where
  numArgs : Nat
  finishedCount : Nat
  ts : List Nat
  f : List Value → Value
  r : Nat

/-- The heap: all cells, all liftA environments, and an instrumentation
log recording each argument the fmap callback applies its function to
(used to state that the fmap function runs at most once). -/
structure Heap where
  cells : List CellB
  envs : List LiftAEnv
  fLog : List Value

/-- The empty heap. -/
def emptyHeapB : Heap := { cells := [], envs := [], fLog := [] }

/-- Faults of the embedded programs: the two thrown strings of the source
(lines 52, 74 and 168), the host-level fault of calling promise methods on
a non-promise, a dangling reference, and fuel exhaustion of the
interpreter (never hit on the runs below). -/
inductive JSErr where
  | notPending
  | pendingData
  | notAPromise
  | badRef
  | outOfFuel
deriving DecidableEq, Repr

/-- Read a cell. -/
def getCellB (h : Heap) (i : Nat) : Except JSErr CellB :=
  match h.cells[i]? with
  | some c => .ok c
  | none => .error .badRef

/-- Replace a cell. -/
def setCellB (h : Heap) (i : Nat) (c : CellB) : Heap :=
  { h with cells := h.cells.set i c }

/-- Read a liftA environment. -/
def getEnvB (h : Heap) (i : Nat) : Except JSErr LiftAEnv :=
  match h.envs[i]? with
  | some env => .ok env
  | none => .error .badRef

/-- Replace a liftA environment. -/
def setEnvB (h : Heap) (i : Nat) (env : LiftAEnv) : Heap :=
  { h with envs := h.envs.set i env }

/-- Allocate a fresh default cell: promise() with no options (the way all
combinators of the source create cells). -/
def allocCellB (h : Heap) : Nat × Heap :=
  (h.cells.length, { h with cells := h.cells ++ [freshCell defaultErrorToData] })

/-- Translation of getData (lines 166 to 174) for a heap cell. -/
def getDataB (c : CellB) : Except JSErr Value :=
  if c.state = .PENDING then .error .pendingData
  else if c.state = .SUCCEEDED then .ok (c.data.getD .vnull)
  else .ok (c.errorToData (c.error.getD .vnull))

/-- The read t$s.map of line 350: the data accessor of every collected
input cell, left to right, the first fault propagating. -/
def readDatas (h : Heap) : List Nat → Except JSErr (List Value)
  | [] => .ok []
  | t :: ts => do
      let c ← getCellB h t
      let d ← getDataB c
      let rest ← readDatas h ts
      .ok (d :: rest)

mutual

/-- Translation of notifySuccess (lines 50 to 62) in the heap layer: throw
unless PENDING, set the state and data, then run the success listeners in
order with the data and the finish listeners in order with the current
(state, data, error) triple.  The registries are kept, as in the source. -/
def notifySuccessB : Nat → Nat → Value → Heap → Except JSErr Heap
  | 0, _, _, _ => .error .outOfFuel
  | fuel + 1, i, d, h => do
    let c ← getCellB h i
    if c.state ≠ .PENDING then .error .notPending
    else
      let h1 := setCellB h i { c with state := .SUCCEEDED, data := some d }
      let h2 ← runSListB fuel c.succL d h1
      runFinListB fuel c.finL .SUCCEEDED (some d) c.error h2
termination_by fuel i d h => (fuel, 0, 0)

/-- Translation of notifyFailure (lines 72 to 84) in the heap layer. -/
def notifyFailureB : Nat → Nat → Value → Heap → Except JSErr Heap
  | 0, _, _, _ => .error .outOfFuel
  | fuel + 1, i, e, h => do
    let c ← getCellB h i
    if c.state ≠ .PENDING then .error .notPending
    else
      let h1 := setCellB h i { c with state := .FAILED, error := some e }
      let h2 ← runFListB fuel c.failL e h1
      runFinListB fuel c.finL .FAILED c.data (some e) h2
termination_by fuel i e h => (fuel, 0, 0)

/-- The drain loop over success listeners (lines 56 to 58). -/
def runSListB : Nat → List SListener → Value → Heap → Except JSErr Heap
  | _, [], _, h => .ok h
  | fuel, l :: ls, d, h => do
    let h1 ← runSB fuel l d h
    runSListB fuel ls d h1
termination_by fuel ls d h => (fuel, 10, ls.length)

/-- The drain loop over failure listeners (lines 78 to 80). -/
def runFListB : Nat → List FListener → Value → Heap → Except JSErr Heap
  | _, [], _, h => .ok h
  | fuel, l :: ls, e, h => do
    let h1 ← runFB fuel l e h
    runFListB fuel ls e h1
termination_by fuel ls e h => (fuel, 10, ls.length)

/-- The drain loop over finish listeners (lines 59 to 61 and 81 to 83). -/
def runFinListB : Nat → List FinListener → PState → Option Value → Option Value → Heap →
    Except JSErr Heap
  | _, [], _, _, _, h => .ok h
  | fuel, l :: ls, st, dd, ee, h => do
    let h1 ← runFinB fuel l st dd ee h
    runFinListB fuel ls st dd ee h1
termination_by fuel ls st dd ee h => (fuel, 10, ls.length)

/-- Run one success-channel closure.  fmapS (lines 269 to 271) applies the
fmap function to the data and resolves the output cell success with the
outcome; with a promise-returning function the application first builds
that cell.  joinOuterS (lines 290 to 298) subscribes the two inner
callbacks on the inner promise carried by the data; the data must be a
cell reference, as in the host language.  joinInnerS (lines 292 to 294)
resolves the join result success with the same data. -/
def runSB : Nat → SListener → Value → Heap → Except JSErr Heap
  | fuel, .fmapS fn r, d, h =>
    let h0 := { h with fLog := h.fLog ++ [d] }
    match fn with
    | .pureF f => notifySuccessB fuel r (f d) h0
    | .bindF f => do
        let (q, h1) ← evalProg fuel (f d) h0
        notifySuccessB fuel r (.vcell q) h1
  | fuel, .joinOuterS t, d, h =>
    match d with
    | .vcell inner => do
        let h1 ← registerSucceedB fuel inner (.joinInnerS t) h
        registerFailB fuel inner (.joinInnerF t) h1
    | _ => .error .notAPromise
  | fuel, .joinInnerS t, d, h => notifySuccessB fuel t d h
termination_by fuel l d h => (fuel, 9, 0)

/-- Run one failure-channel closure: fmapF (lines 272 to 274) propagates
the error to the fmap output; joinOuterF (lines 299 to 301) and joinInnerF
(lines 295 to 297) propagate the error to the join result. -/
def runFB : Nat → FListener → Value → Heap → Except JSErr Heap
  | fuel, .fmapF r, e, h => notifyFailureB fuel r e h
  | fuel, .joinOuterF t, e, h => notifyFailureB fuel t e h
  | fuel, .joinInnerF t, e, h => notifyFailureB fuel t e h
termination_by fuel l e h => (fuel, 9, 0)

/-- Run the liftA finish closure (lines 346 to 354): increment the shared
counter; when it reaches the argument count, read the data accessor of
every collected input cell in order and resolve the result cell success
with the lifted function applied to that list. -/
def runFinB : Nat → FinListener → PState → Option Value → Option Value → Heap →
    Except JSErr Heap
  | fuel, .liftAFin envId, _, _, _, h => do
    let env ← getEnvB h envId
    let cnt := env.finishedCount + 1
    let h1 := setEnvB h envId { env with finishedCount := cnt }
    if cnt = env.numArgs then do
      let args ← readDatas h1 env.ts
      notifySuccessB fuel env.r (env.f args) h1
    else .ok h1
termination_by fuel l st dd ee h => (fuel, 9, 0)

/-- Translation of registerSuccessListener (lines 97 to 104) with a
defunctionalised closure: append when PENDING, run the closure at once
with the stored data when SUCCEEDED, do nothing when FAILED. -/
def registerSucceedB : Nat → Nat → SListener → Heap → Except JSErr Heap
  | 0, _, _, _ => .error .outOfFuel
  | fuel + 1, i, l, h => do
    let c ← getCellB h i
    if c.state = .PENDING then
      .ok (setCellB h i { c with succL := c.succL ++ [l] })
    else if c.state = .SUCCEEDED then
      runSB fuel l (c.data.getD .vnull) h
    else .ok h
termination_by fuel i l h => (fuel, 1, 0)

/-- Translation of registerFailureListener (lines 117 to 124). -/
def registerFailB : Nat → Nat → FListener → Heap → Except JSErr Heap
  | 0, _, _, _ => .error .outOfFuel
  | fuel + 1, i, l, h => do
    let c ← getCellB h i
    if c.state = .PENDING then
      .ok (setCellB h i { c with failL := c.failL ++ [l] })
    else if c.state = .FAILED then
      runFB fuel l (c.error.getD .vnull) h
    else .ok h
termination_by fuel i l h => (fuel, 1, 0)

/-- Translation of registerFinishListener (lines 137 to 144). -/
def registerFinishB : Nat → Nat → FinListener → Heap → Except JSErr Heap
  | 0, _, _, _ => .error .outOfFuel
  | fuel + 1, i, l, h => do
    let c ← getCellB h i
    if c.state = .PENDING then
      .ok (setCellB h i { c with finL := c.finL ++ [l] })
    else
      runFinB fuel l c.state c.data c.error h

/-- Translation of unit (lines 201 to 205): create a cell and resolve it
success at once. -/
def unitOpB : Nat → Value → Heap → Except JSErr (Nat × Heap)
  | fuel, v, h => do
    let (i, h1) := allocCellB h
    let h2 ← notifySuccessB fuel i v h1
    .ok (i, h2)
termination_by fuel v h => (fuel, 3, 0)

/-- A producer resolving a fresh cell failed through the protected entry
point (the pattern the domain-specific producers use, per lines 2 to 4 and
72 to 84). -/
def failedOpB : Nat → Value → Heap → Except JSErr (Nat × Heap)
  | fuel, e, h => do
    let (i, h1) := allocCellB h
    let h2 ← notifyFailureB fuel i e h1
    .ok (i, h2)
termination_by fuel e h => (fuel, 3, 0)

/-- The body of the function returned by fmap (lines 267 to 276): create
the output cell, subscribe the success closure then the failure closure on
the input cell, return the output cell. -/
def fmapApplyB : Nat → FmapFn → Nat → Heap → Except JSErr (Nat × Heap)
  | fuel, fn, t, h => do
    let (r, h1) := allocCellB h
    let h2 ← registerSucceedB fuel t (.fmapS fn r) h1
    let h3 ← registerFailB fuel t (.fmapF r) h2
    .ok (r, h3)
termination_by fuel fn t h => (fuel, 3, 0)

/-- The body of join (lines 287 to 303): create the result cell, subscribe
the outer success closure then the outer failure closure on the promise of
promise, return the result cell. -/
def joinApplyB : Nat → Nat → Heap → Except JSErr (Nat × Heap)
  | fuel, tt, h => do
    let (t, h1) := allocCellB h
    let h2 ← registerSucceedB fuel tt (.joinOuterS t) h1
    let h3 ← registerFailB fuel tt (.joinOuterF t) h2
    .ok (t, h3)
termination_by fuel tt h => (fuel, 3, 0)

/-- Evaluate a cell-building program, returning the id of the built cell. -/
def evalProg : Nat → Prog → Heap → Except JSErr (Nat × Heap)
  | _, .newPromise, h => .ok (allocCellB h)
  | fuel, .unitP v, h => unitOpB fuel v h
  | fuel, .failedP e, h => failedOpB fuel e h
  | fuel, .fmapP fn p, h => do
      let (t, h1) ← evalProg fuel p h
      fmapApplyB fuel fn t h1
  | fuel, .joinP p, h => do
      let (tt, h1) ← evalProg fuel p h
      joinApplyB fuel tt h1
termination_by fuel p h => (fuel, 4, sizeOf p)

end

/-- Translation of flatMap (lines 315 to 324): join composed with fmap of
the promise-returning function, exactly as the source defines it. -/
def flatMapB (f : Value → Prog) (p : Prog) : Prog := .joinP (.fmapP (.bindF f) p)

/-- The registration loop of liftA (lines 343 to 355): for each argument,
push it onto the shared list of inputs, then subscribe the shared finish
closure on it. -/
def liftALoopB : Nat → Nat → List Nat → Heap → Except JSErr Heap
  | _, _, [], h => .ok h
  | fuel, envId, a :: rest, h => do
      let env ← getEnvB h envId
      let h1 := setEnvB h envId { env with ts := env.ts ++ [a] }
      let h2 ← registerFinishB fuel a (.liftAFin envId) h1
      liftALoopB fuel envId rest h2

/-- The body of the function returned by liftA (lines 338 to 358): create
the result cell, create the shared environment with the argument count and
a zero counter, then run the registration loop, and return the result
cell. -/
def liftAOpB (fuel : Nat) (f : List Value → Value) (args : List Nat) (h : Heap) :
    Except JSErr (Nat × Heap) := do
  let (r, h1) := allocCellB h
  let envId := h1.envs.length
  let h2 := { h1 with envs := h1.envs ++
    [{ numArgs := args.length, finishedCount := 0, ts := [], f := f, r := r }] }
  let h3 ← liftALoopB fuel envId args h2
  .ok (r, h3)

/-- Observation of one cell: its state, data and error. -/
def obsB (h : Heap) (i : Nat) : Option (PState × Option Value × Option Value) :=
  (h.cells[i]?).map (fun c => (c.state, c.data, c.error))

/-- Eventual fate a producer gives a cell: left pending forever, resolved
success, or resolved failure. -/
inductive Fate where
  | fpending
  | fsucc (v : Value)
  | ffail (e : Value)

/-- The producer call resolving cell i per a fate (a no-op for a fate that
stays pending). -/
def resolveFate (i : Nat) : Fate → Heap → Except JSErr Heap
  | .fpending, h => .ok h
  | .fsucc v, h => notifySuccessB 20 i v h
  | .ffail e, h => notifyFailureB 20 i e h

/-- Scenario for fmap over one input cell (cell 0, default options): the
producer resolves the input per the fate either before fmap is applied
(late = false) or after (late = true).  Returns the observation of the
output cell and the log of arguments the fmap function was applied to. -/
def fmapRun (f : Value → Value) (fate : Fate) (late : Bool) :
    Except JSErr (Option (PState × Option Value × Option Value) × List Value) := do
  let h0 : Heap := { cells := [freshCell defaultErrorToData], envs := [], fLog := [] }
  let h1 ← if late then pure h0 else resolveFate 0 fate h0
  let (r, h2) ← fmapApplyB 20 (.pureF f) 0 h1
  let h3 ← if late then resolveFate 0 fate h2 else pure h2
  pure (obsB h3 r, h3.fLog)

/-- Expected outcome of the fmap scenario: on input success with d the
output succeeds with f d and f ran exactly once, on d; on input failure
the output fails with the identical error and f never ran; on a pending
input the output is pending and f never ran. -/
def fmapExpected (f : Value → Value) :
    Fate → Option (PState × Option Value × Option Value) × List Value
  | .fpending => (some (.PENDING, none, none), [])
  | .fsucc v => (some (.SUCCEEDED, some (f v), none), [v])
  | .ffail e => (some (.FAILED, none, some e), [])

/-- The doubling function of concrete scenario A. -/
def vdouble : Value → Value
  | .vint n => .vint (2 * n)
  | _ => .vnull

/-- C4: for every function f and every input cell, fmap f resolves the
output success with f applied to the data when the input succeeds, and
failure with the identical error when the input fails, whether the input
resolves before or after fmap is applied; f runs at most once and only on
success; and fmap vdouble over unit 5 yields SUCCEEDED 10. -/
theorem fmap_functor (f : Value → Value) (fate : Fate) (late : Bool) :
    fmapRun f fate late = .ok (fmapExpected f fate) ∧
    (evalProg 20 (.fmapP (.pureF vdouble) (.unitP (.vint 5))) emptyHeapB).map
      (fun rh => obsB rh.2 rh.1) = .ok (some (.SUCCEEDED, some (.vint 10), none)) := by
  constructor
  · cases fate <;> cases late <;>
      simp [fmapRun, fmapExpected, resolveFate, evalProg, unitOpB, failedOpB, fmapApplyB,
        joinApplyB, notifySuccessB, notifyFailureB, registerSucceedB, registerFailB,
        registerFinishB, runSListB, runSB, runFListB, runFB, runFinListB, runFinB,
        getCellB, setCellB, getEnvB, setEnvB, allocCellB, emptyHeapB, freshCell, obsB,
        getDataB, Bind.bind, Except.bind, Pure.pure, Except.pure]
  · simp [vdouble, evalProg, unitOpB, fmapApplyB, notifySuccessB, registerSucceedB,
      registerFailB, runSListB, runSB, runFListB, runFB, runFinListB,
      getCellB, setCellB, allocCellB, emptyHeapB, freshCell, obsB,
      Bind.bind, Except.bind, Pure.pure, Except.pure, Except.map]

/-- Fate of the outer promise of promise in the join scenario: pending,
resolved success with the inner promise (cell 0), or resolved failure. -/
inductive OuterFate where
  | opend
  | osuccInner
  | ofail (e : Value)

/-- The producer call resolving the outer cell (cell 1) per its fate. -/
def resolveOuter : OuterFate → Heap → Except JSErr Heap
  | .opend, h => .ok h
  | .osuccInner, h => notifySuccessB 20 1 (.vcell 0) h
  | .ofail e, h => notifyFailureB 20 1 e h

/-- Scenario for join: cell 0 is the inner promise, cell 1 the outer
promise of promise, both fresh; each resolves per its fate either before
join is applied or after (outer first, then inner, in the late phase).
Returns the observation of the join result and the listener registries of
the inner cell. -/
def joinRun (ofate : OuterFate) (ifate : Fate) (oLate iLate : Bool) :
    Except JSErr (Option (PState × Option Value × Option Value) ×
      Option (List SListener × List FListener × List FinListener)) := do
  let h0 : Heap :=
    { cells := [freshCell defaultErrorToData, freshCell defaultErrorToData],
      envs := [], fLog := [] }
  let h1 ← if iLate then pure h0 else resolveFate 0 ifate h0
  let h2 ← if oLate then pure h1 else resolveOuter ofate h1
  let (t, h3) ← joinApplyB 20 1 h2
  let h4 ← if oLate then resolveOuter ofate h3 else pure h3
  let h5 ← if iLate then resolveFate 0 ifate h4 else pure h4
  pure (obsB h5 t, (h5.cells[0]?).map (fun c => (c.succL, c.failL, c.finL)))

/-- Expected outcome of the join scenario: outer pending gives a pending
result; outer failure gives a failed result with the same outer error;
outer success defers to the fate of the inner promise, with the same data
or error. -/
def joinExpected (ofate : OuterFate) (ifate : Fate) :
    Option (PState × Option Value × Option Value) :=
  match ofate with
  | .opend => some (.PENDING, none, none)
  | .ofail e => some (.FAILED, none, some e)
  | .osuccInner =>
    match ifate with
    | .fpending => some (.PENDING, none, none)
    | .fsucc v => some (.SUCCEEDED, some v, none)
    | .ffail e => some (.FAILED, none, some e)

/-- C6: join settles with the same terminal state and value as the final
promise in the chain: on outer failure it fails with the outer error and
the inner promise is never consulted (no listener is ever registered on
it); on outer success it mirrors the inner promise.  join of
unit (unit "inner") succeeds with "inner". -/
theorem join_flattens (ofate : OuterFate) (ifate : Fate) (oLate iLate : Bool)
    (e : Value) :
    (joinRun ofate ifate oLate iLate).map Prod.fst = .ok (joinExpected ofate ifate) ∧
    (joinRun (.ofail e) ifate oLate iLate).map Prod.snd = .ok (some ([], [], [])) ∧
    (do
      let (q, h1) ← evalProg 20 (.unitP (.vstr "inner")) emptyHeapB
      let (tt, h2) ← unitOpB 20 (.vcell q) h1
      let (t, h3) ← joinApplyB 20 tt h2
      pure (obsB h3 t) : Except JSErr _) =
      .ok (some (.SUCCEEDED, some (.vstr "inner"), none)) := by
  refine ⟨?_, ?_, ?_⟩
  · cases ofate <;> cases ifate <;> cases oLate <;> cases iLate <;>
      simp [joinRun, joinExpected, resolveFate, resolveOuter, evalProg, unitOpB, failedOpB,
        fmapApplyB, joinApplyB, notifySuccessB, notifyFailureB, registerSucceedB,
        registerFailB, registerFinishB, runSListB, runSB, runFListB, runFB, runFinListB,
        runFinB, getCellB, setCellB, getEnvB, setEnvB, allocCellB, emptyHeapB, freshCell,
        obsB, getDataB, Bind.bind, Except.bind, Pure.pure, Except.pure, Except.map]
  · cases ifate <;> cases oLate <;> cases iLate <;>
      simp [joinRun, joinExpected, resolveFate, resolveOuter, evalProg, unitOpB, failedOpB,
        fmapApplyB, joinApplyB, notifySuccessB, notifyFailureB, registerSucceedB,
        registerFailB, registerFinishB, runSListB, runSB, runFListB, runFB, runFinListB,
        runFinB, getCellB, setCellB, getEnvB, setEnvB, allocCellB, emptyHeapB, freshCell,
        obsB, getDataB, Bind.bind, Except.bind, Pure.pure, Except.pure, Except.map]
  · simp [evalProg, unitOpB, joinApplyB, notifySuccessB, registerSucceedB, registerFailB,
      runSListB, runSB, runFListB, runFB, runFinListB, getCellB, setCellB, allocCellB,
      emptyHeapB, freshCell, obsB, Bind.bind, Except.bind, Pure.pure, Except.pure]

/-- The heap a zero-argument liftA application leaves behind: one fresh
pending cell with empty registries, and one environment with zero
arguments and a zero counter. -/
def liftAZeroHeap (g : List Value → Value) : Heap :=
  { cells := [freshCell defaultErrorToData],
    envs := [{ numArgs := 0, finishedCount := 0, ts := [], f := g, r := 0 }],
    fLog := [] }

/-- C10: the function returned by liftA, applied to zero promise
arguments, returns a cell that stays PENDING forever: the registration
loop never runs, so the environment records zero arguments, no listener
exists anywhere in the heap (the completion check lives only inside the
per-input finish callbacks), the result cell observation is PENDING with
no data and no error, and its data accessor faults. -/
theorem liftA_zero_args_pending (f : List Value → Value) (fuel : Nat) :
    liftAOpB fuel f [] emptyHeapB = .ok (0, liftAZeroHeap f) ∧
    (freshCell defaultErrorToData).state = .PENDING ∧
    (freshCell defaultErrorToData).succL = [] ∧
    (freshCell defaultErrorToData).failL = [] ∧
    (freshCell defaultErrorToData).finL = [] ∧
    getDataB (freshCell defaultErrorToData) = .error .pendingData := by
  refine ⟨?_, rfl, rfl, rfl, rfl, rfl⟩
  simp [liftAOpB, liftALoopB, allocCellB, emptyHeapB, liftAZeroHeap,
    Bind.bind, Except.bind, Pure.pure, Except.pure]

/-! ### Claim C2: liftA fan-in over N input cells

The inputs are N fresh cells (arbitrary per-cell errorToData); liftA is
applied to all of them; afterwards a script of producer calls resolves the
pending inputs one at a time, in an arbitrary order and with arbitrary
outcomes.  The heap is characterised in closed form after the application
and after every event. -/

/-- Terminal fate an event gives an input cell. -/
inductive TermFate where
  | tsucc (v : Value)
  | tfail (e : Value)

/-- The heap holding only the N fresh input cells. -/
def inputHeap (etds : List (Value → Value)) : Heap :=
  { cells := etds.map freshCell, envs := [], fLog := [] }

/-- An input cell carrying the liftA finish listener, in the state its
resolution (if any) left it. -/
def inputAt (etd : Value → Value) : Option TermFate → CellB
  | none =>
    { state := .PENDING, data := none, error := none,
      succL := [], failL := [], finL := [.liftAFin 0], errorToData := etd }
  | some (.tsucc v) =>
    { state := .SUCCEEDED, data := some v, error := none,
      succL := [], failL := [], finL := [.liftAFin 0], errorToData := etd }
  | some (.tfail e) =>
    { state := .FAILED, data := none, error := some e,
      succL := [], failL := [], finL := [.liftAFin 0], errorToData := etd }

/-- What the data accessor of an input cell returns once terminal: the
data on success, the errorToData fallback on failure. -/
def inputDatum (etd : Value → Value) : Option TermFate → Value
  | none => .vnull
  | some (.tsucc v) => v
  | some (.tfail e) => etd e

/-- The heap while the liftA result is still pending: the inputs (with the
finish listener registered), the pending result cell, and the environment
with the count of finished inputs. -/
def confHeap (etds : List (Value → Value)) (rs : List (Option TermFate)) (cnt : Nat)
    (f : List Value → Value) : Heap :=
  { cells := List.zipWith inputAt etds rs ++ [freshCell defaultErrorToData],
    envs := [{ numArgs := etds.length, finishedCount := cnt,
               ts := List.range etds.length, f := f, r := etds.length }],
    fLog := [] }

/-- The heap once every input has finished: the result cell holds the
lifted function applied to the data accessor of every input, in order. -/
def doneHeap (etds : List (Value → Value)) (rs : List (Option TermFate))
    (f : List Value → Value) : Heap :=
  { cells := List.zipWith inputAt etds rs ++
      [{ state := .SUCCEEDED, data := some (f (List.zipWith inputDatum etds rs)),
         error := none, succL := [], failL := [], finL := [],
         errorToData := defaultErrorToData }],
    envs := [{ numArgs := etds.length, finishedCount := etds.length,
               ts := List.range etds.length, f := f, r := etds.length }],
    fLog := [] }

/-- Element at the length of the first part of an append. -/
theorem getElem_qm_append_len {α : Type} (as bs : List α) :
    (as ++ bs)[as.length]? = bs[0]? := by
  induction as with
  | nil => simp
  | cons a as ih => simpa using ih

/-- Setting at the length of the first part of an append. -/
theorem set_append_len {α : Type} (as bs : List α) (v : α) :
    (as ++ bs).set as.length v = as ++ bs.set 0 v := by
  induction as with
  | nil => simp
  | cons a as ih => simpa using ih

/-- Reading an append below the length of the first part. -/
theorem getElem_qm_append_lt {α : Type} (as bs : List α) (i : Nat) (h : i < as.length) :
    (as ++ bs)[i]? = as[i]? := by
  induction as generalizing i with
  | nil => simp at h
  | cons a as ih =>
    cases i with
    | zero => simp
    | succ i => simpa using ih i (by simpa using h)

/-- Setting an append below the length of the first part. -/
theorem set_append_lt {α : Type} (as bs : List α) (i : Nat) (v : α) (h : i < as.length) :
    (as ++ bs).set i v = as.set i v ++ bs := by
  induction as generalizing i with
  | nil => simp at h
  | cons a as ih =>
    cases i with
    | zero => simp
    | succ i => simpa using ih i (by simpa using h)

/-- Pointwise reading of zipWith. -/
theorem zipWith_getElem_qm {α β γ : Type} (g : α → β → γ) :
    ∀ (as : List α) (bs : List β) (i : Nat),
    (List.zipWith g as bs)[i]? = (as[i]?).bind (fun a => (bs[i]?).map (g a)) := by
  intro as
  induction as with
  | nil => simp
  | cons a as ih =>
    intro bs i
    cases bs with
    | nil => simp
    | cons b bs =>
      cases i with
      | zero => simp
      | succ i => simpa using ih bs i

/-- Setting inside a zipWith when the new value comes from the same left
element. -/
theorem zipWith_set {α β γ : Type} (g : α → β → γ) :
    ∀ (as : List α) (bs : List β) (i : Nat) (a : α) (b : β),
    as[i]? = some a →
    (List.zipWith g as bs).set i (g a b) = List.zipWith g as (bs.set i b) := by
  intro as
  induction as with
  | nil => intro bs i a b h; simp at h
  | cons a0 as ih =>
    intro bs i a b h
    cases bs with
    | nil => simp
    | cons b0 bs =>
      cases i with
      | zero => simp at h; simp [h]
      | succ i => simpa using ih bs i a b (by simpa using h)

/-- zipWith against a replicate of the matching length is a map. -/
theorem zipWith_replicate_len {α β γ : Type} (g : α → β → γ) (b : β) :
    ∀ (as : List α), List.zipWith g as (List.replicate as.length b) =
      as.map (fun a => g a b) := by
  intro as
  induction as with
  | nil => simp
  | cons a as ih => simpa [List.replicate_succ] using ih

/-- The heap seen by the liftA registration loop after it has processed
the inputs in done and before it processes the inputs in rest; N is the
total argument count. -/
def loopHeap (N : Nat) (done rest : List (Value → Value)) (f : List Value → Value) : Heap :=
  { cells := done.map (fun e => inputAt e none) ++ rest.map freshCell ++
      [freshCell defaultErrorToData],
    envs := [{ numArgs := N, finishedCount := 0,
               ts := List.range done.length, f := f, r := N }],
    fLog := [] }

/-- Reading the first unprocessed input of the registration loop. -/
theorem get_fresh_input (done rest2 : List (Value → Value)) (etd : Value → Value) :
    (List.map (fun e => inputAt e none) done ++ (freshCell etd ::
      (List.map freshCell rest2 ++ [freshCell defaultErrorToData])))[done.length]? =
    some (freshCell etd) := by
  have h := getElem_qm_append_len (List.map (fun e => inputAt e none) done)
    (freshCell etd :: (List.map freshCell rest2 ++ [freshCell defaultErrorToData]))
  simpa using h

/-- Writing the first unprocessed input of the registration loop. -/
theorem set_fresh_input (done rest2 : List (Value → Value)) (etd : Value → Value)
    (v : CellB) :
    (List.map (fun e => inputAt e none) done ++ (freshCell etd ::
      (List.map freshCell rest2 ++ [freshCell defaultErrorToData]))).set done.length v =
    List.map (fun e => inputAt e none) done ++ (v ::
      (List.map freshCell rest2 ++ [freshCell defaultErrorToData])) := by
  have h := set_append_len (List.map (fun e => inputAt e none) done)
    (freshCell etd :: (List.map freshCell rest2 ++ [freshCell defaultErrorToData])) v
  simpa using h

/-- A fresh cell that has just received the liftA finish listener is a
pending input cell. -/
theorem fresh_to_input (etd : Value → Value) :
    ({ state := .PENDING, data := none, error := none, succL := [], failL := [],
       finL := [.liftAFin 0], errorToData := etd } : CellB) = inputAt etd none := rfl

/-- The registration loop of liftA over fresh pending inputs: every input
receives the shared finish listener, the shared list of inputs collects
the indices in order, and the counter stays zero. -/
theorem liftALoop_all_pending (f : List Value → Value) (N : Nat) :
    ∀ (rest done : List (Value → Value)) (fuel : Nat),
    liftALoopB (fuel + 1) 0 (List.range' done.length rest.length) (loopHeap N done rest f)
    = .ok (loopHeap N (done ++ rest) [] f) := by
  intro rest
  induction rest with
  | nil => intro done fuel; simp [liftALoopB, List.range', loopHeap]
  | cons etd rest2 ih =>
    intro done fuel
    rw [List.length_cons, List.range'_succ, liftALoopB]
    simp only [loopHeap, getEnvB, setEnvB, List.getElem?_cons_zero, Bind.bind, Except.bind,
      List.set_cons_zero, List.map_cons, List.length_cons, List.cons_append,
      List.append_assoc]
    rw [registerFinishB]
    simp only [getCellB, get_fresh_input, setCellB, set_fresh_input]
    simp only [freshCell, reduceCtorEq, reduceIte, List.nil_append, fresh_to_input]
    have step := ih (done ++ [etd]) fuel
    simp only [loopHeap, List.map_append, List.map_cons, List.map_nil, List.append_assoc,
      List.cons_append, List.nil_append, List.length_append, List.length_cons,
      List.length_nil, List.range_succ, Nat.zero_add, Nat.add_zero] at step ⊢
    exact step

/-- Reading a position just overwritten. -/
theorem getElem_qm_set_self {α : Type} :
    ∀ (l : List α) (i : Nat) (a : α), i < l.length → (l.set i a)[i]? = some a := by
  intro l
  induction l with
  | nil => intro i a h; simp at h
  | cons x l ih =>
    intro i a h
    cases i with
    | zero => simp
    | succ i => simpa using ih i a (by simpa using h)

/-- Reading a position other than the one just overwritten. -/
theorem getElem_qm_set_ne {α : Type} :
    ∀ (l : List α) (i k : Nat) (a : α), i ≠ k → (l.set i a)[k]? = l[k]? := by
  intro l
  induction l with
  | nil => intro i k a h; simp
  | cons x l ih =>
    intro i k a h
    cases i with
    | zero =>
      cases k with
      | zero => exact absurd rfl h
      | succ k => simp
    | succ i =>
      cases k with
      | zero => simp
      | succ k => simpa using ih i k a (by omega)

/-- A some result of a read bounds the index. -/
theorem getElem_qm_lt {α : Type} :
    ∀ (l : List α) (i : Nat) (x : α), l[i]? = some x → i < l.length := by
  intro l
  induction l with
  | nil => intro i x h; simp at h
  | cons a l ih =>
    intro i x h
    cases i with
    | zero => simp
    | succ i => simpa using ih i x (by simpa using h)

/-- Any index below the length reads a some. -/
theorem lt_getElem_qm {α : Type} :
    ∀ (l : List α) (i : Nat), i < l.length → ∃ x, l[i]? = some x := by
  intro l
  induction l with
  | nil => intro i h; simp at h
  | cons a l ih =>
    intro i h
    cases i with
    | zero => exact ⟨a, by simp⟩
    | succ i => simpa using ih i (by simpa using h)

/-- Applying liftA to the N fresh input cells: the result cell is created
at index N, every input receives the shared finish listener, the
environment records the N inputs in order with a zero counter, and the
result cell stays pending. -/
theorem liftA_setup (etds : List (Value → Value)) (f : List Value → Value) (fuel : Nat) :
    liftAOpB (fuel + 1) f (List.range etds.length) (inputHeap etds) =
      .ok (etds.length, confHeap etds (List.replicate etds.length none) 0 f) := by
  have hl := liftALoop_all_pending f etds.length etds [] fuel
  simp only [loopHeap, List.map_nil, List.nil_append, List.length_nil, List.range_zero,
    List.append_nil] at hl
  rw [liftAOpB]
  simp only [inputHeap, allocCellB, Bind.bind, Except.bind, List.length_map,
    List.length_range, List.nil_append, List.length_nil]
  rw [← List.range_eq_range'] at hl
  rw [hl]
  simp only [confHeap, zipWith_replicate_len]

/-- One producer call resolving input cell j per a terminal fate. -/
def resolveInput (fuel j : Nat) : TermFate → Heap → Except JSErr Heap
  | .tsucc v, h => notifySuccessB fuel j v h
  | .tfail e, h => notifyFailureB fuel j e h

/-- Reading input j of a liftA configuration. -/
theorem conf_cells_get (etds : List (Value → Value)) (rs : List (Option TermFate))
    (X : CellB) (j : Nat) (etd : Value → Value) (o : Option TermFate)
    (hj : etds[j]? = some etd) (ho : rs[j]? = some o) :
    (List.zipWith inputAt etds rs ++ [X])[j]? = some (inputAt etd o) := by
  have hjl : j < etds.length := getElem_qm_lt etds j etd hj
  have hrl : j < rs.length := getElem_qm_lt rs j o ho
  rw [getElem_qm_append_lt _ _ j (by rw [List.length_zipWith]; omega)]
  rw [zipWith_getElem_qm, hj, ho]
  rfl

/-- Writing input j of a liftA configuration. -/
theorem conf_cells_set (etds : List (Value → Value)) (rs : List (Option TermFate))
    (X : CellB) (j : Nat) (etd : Value → Value) (o2 : Option TermFate)
    (hj : etds[j]? = some etd) (hrl : j < rs.length) :
    (List.zipWith inputAt etds rs ++ [X]).set j (inputAt etd o2) =
    List.zipWith inputAt etds (rs.set j o2) ++ [X] := by
  have hjl : j < etds.length := getElem_qm_lt etds j etd hj
  rw [set_append_lt _ _ _ _ (by rw [List.length_zipWith]; omega)]
  rw [zipWith_set inputAt etds rs j etd o2 hj]

/-- Resolving a pending input success gives the resolved input record. -/
theorem input_update_succ (etd : Value → Value) (v : Value) :
    ({ inputAt etd none with state := .SUCCEEDED, data := some v } : CellB) =
    inputAt etd (some (.tsucc v)) := rfl

/-- Resolving a pending input failure gives the resolved input record. -/
theorem input_update_fail (etd : Value → Value) (e : Value) :
    ({ inputAt etd none with state := .FAILED, error := some e } : CellB) =
    inputAt etd (some (.tfail e)) := rfl

/-- The data accessor over every input cell, read through the heap in
input order, once every input is terminal. -/
theorem readDatas_inputData (h : Heap) :
    ∀ (ets : List (Value → Value)) (rss : List (Option TermFate)) (k : Nat),
    (∀ i etd, ets[i]? = some etd →
      ∃ tf, rss[i]? = some (some tf) ∧ h.cells[k + i]? = some (inputAt etd (some tf))) →
    readDatas h (List.range' k ets.length) = .ok (List.zipWith inputDatum ets rss) := by
  intro ets
  induction ets with
  | nil => intro rss k hp; simp [List.range', readDatas]
  | cons etd ets2 ih =>
    intro rss k hp
    obtain ⟨tf, htf, hcell⟩ := hp 0 etd (by simp)
    cases rss with
    | nil => simp at htf
    | cons r0 rss2 =>
      simp only [List.getElem?_cons_zero, Option.some.injEq] at htf
      subst htf
      have hcell0 : h.cells[k]? = some (inputAt etd (some tf)) := by simpa using hcell
      have ihx := ih rss2 (k + 1) (by
        intro i etd2 hi
        obtain ⟨tf2, h1, h2⟩ := hp (i + 1) etd2 (by simpa using hi)
        refine ⟨tf2, by simpa using h1, ?_⟩
        rw [show k + 1 + i = k + (i + 1) by omega]
        exact h2)
      rw [List.length_cons, List.range'_succ, readDatas]
      rw [getCellB, hcell0]
      simp only [Bind.bind, Except.bind]
      rw [ihx]
      cases tf <;> simp [getDataB, inputAt, inputDatum, List.zipWith]

/-- Folding a record back into a resolved success input. -/
theorem input_fold_succ (etd : Value → Value) (v : Value) :
    ({ state := .SUCCEEDED, data := some v, error := none, succL := [], failL := [],
       finL := [.liftAFin 0], errorToData := etd } : CellB) =
    inputAt etd (some (.tsucc v)) := rfl

/-- Folding a record back into a resolved failure input. -/
theorem input_fold_fail (etd : Value → Value) (e : Value) :
    ({ state := .FAILED, data := none, error := some e, succL := [], failL := [],
       finL := [.liftAFin 0], errorToData := etd } : CellB) =
    inputAt etd (some (.tfail e)) := rfl

/-- Resolving one pending input while at least one other input stays
pending: the counter increments, the input moves to its terminal state,
and the liftA result stays pending. -/
theorem liftA_step_mid (etds : List (Value → Value)) (rs : List (Option TermFate))
    (cnt : Nat) (f : List Value → Value) (j : Nat) (tf : TermFate) (fuel : Nat)
    (hlen : rs.length = etds.length)
    (hrs : rs[j]? = some none)
    (hcnt : ¬ cnt + 1 = etds.length) :
    resolveInput (fuel + 1 + 1) j tf (confHeap etds rs cnt f) =
      .ok (confHeap etds (rs.set j (some tf)) (cnt + 1) f) := by
  have hrl : j < rs.length := getElem_qm_lt rs j none hrs
  have hjl : j < etds.length := by omega
  obtain ⟨etd, hj⟩ := lt_getElem_qm etds j hjl
  have hget := conf_cells_get etds rs (freshCell defaultErrorToData) j etd none hj hrs
  cases tf with
  | tsucc v =>
    rw [resolveInput, notifySuccessB]
    simp only [confHeap, getCellB, setCellB, Bind.bind, Except.bind]
    rw [hget]
    simp only [inputAt, ne_eq, reduceCtorEq, not_false_eq_true, not_true_eq_false,
      reduceIte, ite_false, ite_true]
    simp only [input_fold_succ,
      conf_cells_set etds rs (freshCell defaultErrorToData) j etd (some (.tsucc v)) hj hrl]
    simp only [runSListB, runFinListB, runFinB, getEnvB, setEnvB,
      List.getElem?_cons_zero, List.set_cons_zero, Bind.bind, Except.bind]
    rw [if_neg hcnt]
  | tfail e =>
    rw [resolveInput, notifyFailureB]
    simp only [confHeap, getCellB, setCellB, Bind.bind, Except.bind]
    rw [hget]
    simp only [inputAt, ne_eq, reduceCtorEq, not_false_eq_true, not_true_eq_false,
      reduceIte, ite_false, ite_true]
    simp only [input_fold_fail,
      conf_cells_set etds rs (freshCell defaultErrorToData) j etd (some (.tfail e)) hj hrl]
    simp only [runFListB, runFinListB, runFinB, getEnvB, setEnvB,
      List.getElem?_cons_zero, List.set_cons_zero, Bind.bind, Except.bind]
    rw [if_neg hcnt]

/-- The readDatas lemma restated over List.range. -/
theorem readDatas_inputData_range (h : Heap) (ets : List (Value → Value))
    (rss : List (Option TermFate))
    (hp : ∀ i etd, ets[i]? = some etd →
      ∃ tf, rss[i]? = some (some tf) ∧ h.cells[0 + i]? = some (inputAt etd (some tf))) :
    readDatas h (List.range ets.length) = .ok (List.zipWith inputDatum ets rss) := by
  rw [List.range_eq_range']
  exact readDatas_inputData h ets rss 0 hp

/-- Resolving the last pending input: the counter reaches the argument
count, the data accessor of every input is read in input order, and the
result cell resolves success with the lifted function applied to those
values. -/
theorem liftA_step_last (etds : List (Value → Value)) (rs : List (Option TermFate))
    (cnt : Nat) (f : List Value → Value) (j : Nat) (tf : TermFate) (fuel : Nat)
    (hlen : rs.length = etds.length)
    (hrs : rs[j]? = some none)
    (hcnt : cnt + 1 = etds.length)
    (hall : ∀ i, i < etds.length → i ≠ j → ∃ tf2, rs[i]? = some (some tf2)) :
    resolveInput (fuel + 1 + 1) j tf (confHeap etds rs cnt f) =
      .ok (doneHeap etds (rs.set j (some tf)) f) := by
  have hrl : j < rs.length := getElem_qm_lt rs j none hrs
  have hjl : j < etds.length := by omega
  obtain ⟨etd, hj⟩ := lt_getElem_qm etds j hjl
  have hget := conf_cells_get etds rs (freshCell defaultErrorToData) j etd none hj hrs
  have hpoint : ∀ (tf0 : TermFate) (i : Nat) (etd2 : Value → Value),
      etds[i]? = some etd2 →
      ∃ tf2, (rs.set j (some tf0))[i]? = some (some tf2) ∧
        (List.zipWith inputAt etds (rs.set j (some tf0)) ++
          [freshCell defaultErrorToData])[0 + i]? = some (inputAt etd2 (some tf2)) := by
    intro tf0 i etd2 hi
    by_cases hij : i = j
    · subst hij
      have h1 : (rs.set i (some tf0))[i]? = some (some tf0) :=
        getElem_qm_set_self rs i (some tf0) hrl
      refine ⟨tf0, h1, ?_⟩
      rw [Nat.zero_add]
      exact conf_cells_get etds (rs.set i (some tf0)) _ i etd2 (some tf0) hi h1
    · have hil : i < etds.length := getElem_qm_lt etds i etd2 hi
      obtain ⟨tf2, h2⟩ := hall i hil hij
      have h1 : (rs.set j (some tf0))[i]? = some (some tf2) := by
        rw [getElem_qm_set_ne rs j i (some tf0) (by omega)]; exact h2
      refine ⟨tf2, h1, ?_⟩
      rw [Nat.zero_add]
      exact conf_cells_get etds (rs.set j (some tf0)) _ i etd2 (some tf2) hi h1
  have hresget : ∀ (tf0 : TermFate),
      (List.zipWith inputAt etds (rs.set j (some tf0)) ++
        [freshCell defaultErrorToData])[etds.length]? =
      some (freshCell defaultErrorToData) := by
    intro tf0
    have hz : (List.zipWith inputAt etds (rs.set j (some tf0))).length = etds.length := by
      simp [List.length_zipWith, hlen]
    have h := getElem_qm_append_len (List.zipWith inputAt etds (rs.set j (some tf0)))
      [freshCell defaultErrorToData]
    rw [hz] at h
    simpa using h
  have hresset : ∀ (tf0 : TermFate) (v : CellB),
      (List.zipWith inputAt etds (rs.set j (some tf0)) ++
        [freshCell defaultErrorToData]).set etds.length v =
      List.zipWith inputAt etds (rs.set j (some tf0)) ++ [v] := by
    intro tf0 v
    have hz : (List.zipWith inputAt etds (rs.set j (some tf0))).length = etds.length := by
      simp [List.length_zipWith, hlen]
    have h := set_append_len (List.zipWith inputAt etds (rs.set j (some tf0)))
      [freshCell defaultErrorToData] v
    rw [hz] at h
    simpa using h
  have hresset2 : ∀ (tf0 : TermFate) (v : CellB), (List.zipWith inputAt etds (rs.set j (some tf0)) ++ [({ state := .PENDING, data := none, error := none, succL := [], failL := [], finL := [], errorToData := defaultErrorToData } : CellB)]).set etds.length v = List.zipWith inputAt etds (rs.set j (some tf0)) ++ [v] := by
    intro tf0 v
    have h := hresset tf0 v
    simpa [freshCell] using h
  cases tf with
  | tsucc v =>
    rw [resolveInput, notifySuccessB]
    simp only [confHeap, getCellB, setCellB, Bind.bind, Except.bind]
    rw [hget]
    simp only [inputAt, ne_eq, reduceCtorEq, not_false_eq_true, not_true_eq_false,
      reduceIte, ite_false, ite_true]
    simp only [input_fold_succ,
      conf_cells_set etds rs (freshCell defaultErrorToData) j etd (some (.tsucc v)) hj hrl]
    simp only [runSListB, runFinListB, runFinB, getEnvB, setEnvB,
      List.getElem?_cons_zero, List.set_cons_zero, Bind.bind, Except.bind]
    rw [if_pos hcnt]
    rw [readDatas_inputData_range _ etds (rs.set j (some (.tsucc v))) (hpoint _)]
    simp only [notifySuccessB, getCellB, setCellB, Bind.bind, Except.bind]
    rw [hresget (.tsucc v)]
    simp only [freshCell, ne_eq, reduceCtorEq, not_false_eq_true, not_true_eq_false,
      reduceIte, ite_false, ite_true]
    rw [hresset2 (.tsucc v)]
    simp only [runSListB, runFinListB]
    simp [doneHeap, hcnt]
  | tfail e =>
    rw [resolveInput, notifyFailureB]
    simp only [confHeap, getCellB, setCellB, Bind.bind, Except.bind]
    rw [hget]
    simp only [inputAt, ne_eq, reduceCtorEq, not_false_eq_true, not_true_eq_false,
      reduceIte, ite_false, ite_true]
    simp only [input_fold_fail,
      conf_cells_set etds rs (freshCell defaultErrorToData) j etd (some (.tfail e)) hj hrl]
    simp only [runFListB, runFinListB, runFinB, getEnvB, setEnvB,
      List.getElem?_cons_zero, List.set_cons_zero, Bind.bind, Except.bind]
    rw [if_pos hcnt]
    rw [readDatas_inputData_range _ etds (rs.set j (some (.tfail e))) (hpoint _)]
    simp only [notifySuccessB, getCellB, setCellB, Bind.bind, Except.bind]
    rw [hresget (.tfail e)]
    simp only [freshCell, ne_eq, reduceCtorEq, not_false_eq_true, not_true_eq_false,
      reduceIte, ite_false, ite_true]
    rw [hresset2 (.tfail e)]
    simp only [runSListB, runFinListB]
    simp [doneHeap, hcnt]

/-- Apply a script of producer calls, each resolving one input. -/
def applyScript (fuel : Nat) : List (Nat × TermFate) → Heap → Except JSErr Heap
  | [], h => .ok h
  | (j, tf) :: rest, h => do
      let h1 ← resolveInput fuel j tf h
      applyScript fuel rest h1

/-- The fates of the inputs after a script has run. -/
def scriptFates (script : List (Nat × TermFate)) (rs : List (Option TermFate)) :
    List (Option TermFate) :=
  script.foldl (fun a x => a.set x.1 (some x.2)) rs

/-- The whole liftA scenario: create the N fresh inputs, apply liftA to
all of them, then run the script. -/
def liftARun (fuel : Nat) (f : List Value → Value) (etds : List (Value → Value))
    (script : List (Nat × TermFate)) : Except JSErr (Nat × Heap) := do
  let (r, h1) ← liftAOpB fuel f (List.range etds.length) (inputHeap etds)
  let h2 ← applyScript fuel script h1
  .ok (r, h2)

/-- Reading a replicate below its length. -/
theorem getElem_qm_replicate {α : Type} (a : α) :
    ∀ (n i : Nat), i < n → (List.replicate n a)[i]? = some a := by
  intro n
  induction n with
  | zero => intro i h; omega
  | succ n ih =>
    intro i h
    cases i with
    | zero => simp [List.replicate_succ]
    | succ i => simp only [List.replicate_succ, List.getElem?_cons_succ]; exact ih i (by omega)

/-- A script leaves the number of inputs unchanged. -/
theorem scriptFates_length :
    ∀ (script : List (Nat × TermFate)) (rs : List (Option TermFate)),
    (scriptFates script rs).length = rs.length := by
  intro script
  induction script with
  | nil => intro rs; simp [scriptFates]
  | cons x rest ih =>
    intro rs
    simp only [scriptFates, List.foldl_cons] at ih ⊢
    rw [ih]
    simp

/-- The result cell of a pending liftA configuration observes PENDING. -/
theorem obs_conf (etds : List (Value → Value)) (rs : List (Option TermFate))
    (cnt : Nat) (f : List Value → Value) (hlen : rs.length = etds.length) :
    obsB (confHeap etds rs cnt f) etds.length = some (.PENDING, none, none) := by
  simp only [obsB, confHeap]
  have h := getElem_qm_append_len (List.zipWith inputAt etds rs) [freshCell defaultErrorToData]
  rw [show (List.zipWith inputAt etds rs).length = etds.length by
    simp [List.length_zipWith, hlen]] at h
  rw [h]
  simp [freshCell]

/-- The result cell of a finished liftA observes SUCCEEDED with the lifted
function applied to the data accessor of every input. -/
theorem obs_done (etds : List (Value → Value)) (rs : List (Option TermFate))
    (f : List Value → Value) (hlen : rs.length = etds.length) :
    obsB (doneHeap etds rs f) etds.length =
      some (.SUCCEEDED, some (f (List.zipWith inputDatum etds rs)), none) := by
  simp only [obsB, doneHeap]
  have h := getElem_qm_append_len (List.zipWith inputAt etds rs)
    [{ state := .SUCCEEDED, data := some (f (List.zipWith inputDatum etds rs)),
       error := none, succL := [], failL := [], finL := [],
       errorToData := defaultErrorToData }]
  rw [show (List.zipWith inputAt etds rs).length = etds.length by
    simp [List.length_zipWith, hlen]] at h
  rw [h]
  simp

/-- A script that leaves at least one input pending: every event takes the
mid step, the counter tracks the number of finished inputs, and the result
stays pending. -/
theorem applyScript_strict (etds : List (Value → Value)) (f : List Value → Value) :
    ∀ (script : List (Nat × TermFate)) (rs : List (Option TermFate)) (cnt fuel : Nat),
    rs.length = etds.length →
    cnt + script.length < etds.length →
    (script.map Prod.fst).Nodup →
    (∀ x ∈ script, rs[x.1]? = some none) →
    applyScript (fuel + 1 + 1) script (confHeap etds rs cnt f) =
      .ok (confHeap etds (scriptFates script rs) (cnt + script.length) f) := by
  intro script
  induction script with
  | nil => intro rs cnt fuel hlen hlt hnd hp; simp [applyScript, scriptFates]
  | cons x rest ih =>
    intro rs cnt fuel hlen hlt hnd hp
    obtain ⟨j, tf⟩ := x
    have hpj : rs[j]? = some none := hp (j, tf) (by simp)
    rw [applyScript]
    simp only [Bind.bind, Except.bind]
    rw [liftA_step_mid etds rs cnt f j tf fuel hlen hpj
      (by simp only [List.length_cons] at hlt; omega)]
    show applyScript (fuel + 1 + 1) rest (confHeap etds (rs.set j (some tf)) (cnt + 1) f) = _
    have hndt : (rest.map Prod.fst).Nodup := by
      simp only [List.map_cons, List.nodup_cons] at hnd
      exact hnd.2
    have hnj : j ∉ rest.map Prod.fst := by
      simp only [List.map_cons, List.nodup_cons] at hnd
      exact hnd.1
    have ihx := ih (rs.set j (some tf)) (cnt + 1) fuel (by simp [hlen])
      (by simp only [List.length_cons] at hlt; omega) hndt
      (by
        intro y hy
        have hne : j ≠ y.1 := by
          intro hEq
          exact hnj (hEq ▸ (List.mem_map.mpr ⟨y, hy, rfl⟩))
        rw [getElem_qm_set_ne rs j y.1 (some tf) hne]
        exact hp y (by simp [hy]))
    rw [ihx]
    simp only [scriptFates, List.foldl_cons, List.length_cons]
    rw [show cnt + (rest.length + 1) = cnt + 1 + rest.length by omega]

/-- A script that resolves every pending input: the last event takes the
completing step and the result resolves success. -/
theorem applyScript_full (etds : List (Value → Value)) (f : List Value → Value) :
    ∀ (script : List (Nat × TermFate)) (rs : List (Option TermFate)) (cnt fuel : Nat),
    script ≠ [] →
    rs.length = etds.length →
    cnt + script.length = etds.length →
    (script.map Prod.fst).Nodup →
    (∀ x ∈ script, rs[x.1]? = some none) →
    (∀ i, rs[i]? = some none → i ∈ script.map Prod.fst) →
    applyScript (fuel + 1 + 1) script (confHeap etds rs cnt f) =
      .ok (doneHeap etds (scriptFates script rs) f) := by
  intro script
  induction script with
  | nil => intro rs cnt fuel hne; exact absurd rfl hne
  | cons x rest ih =>
    intro rs cnt fuel hne hlen hcnt hnd hp hcov
    obtain ⟨j, tf⟩ := x
    have hpj : rs[j]? = some none := hp (j, tf) (by simp)
    have hrl : j < rs.length := getElem_qm_lt rs j none hpj
    rw [applyScript]
    simp only [Bind.bind, Except.bind]
    cases rest with
    | nil =>
      have hall : ∀ i, i < etds.length → i ≠ j → ∃ tf2, rs[i]? = some (some tf2) := by
        intro i hi hij
        obtain ⟨o, ho⟩ := lt_getElem_qm rs i (by omega)
        cases o with
        | none =>
          have hm := hcov i ho
          simp only [List.map_cons, List.map_nil, List.mem_cons,
            List.not_mem_nil, or_false] at hm
          exact absurd hm hij
        | some tf2 => exact ⟨tf2, ho⟩
      rw [liftA_step_last etds rs cnt f j tf fuel hlen hpj (by simpa using hcnt) hall]
      simp [applyScript, scriptFates]
    | cons y rest2 =>
      have hcnt2 : ¬ cnt + 1 = etds.length := by
        simp only [List.length_cons] at hcnt
        omega
      rw [liftA_step_mid etds rs cnt f j tf fuel hlen hpj hcnt2]
      show applyScript (fuel + 1 + 1) (y :: rest2)
        (confHeap etds (rs.set j (some tf)) (cnt + 1) f) = _
      have hndt : ((y :: rest2).map Prod.fst).Nodup := by
        simp only [List.map_cons, List.nodup_cons] at hnd ⊢
        exact ⟨hnd.2.1, hnd.2.2⟩
      have hnj : j ∉ (y :: rest2).map Prod.fst := by
        simp only [List.map_cons, List.nodup_cons] at hnd
        simpa using hnd.1
      have ihx := ih (rs.set j (some tf)) (cnt + 1) fuel (by simp)
        (by simp [hlen])
        (by simp only [List.length_cons] at hcnt ⊢; omega) hndt
        (by
          intro z hz
          have hne : j ≠ z.1 := by
            intro hEq
            exact hnj (hEq ▸ (List.mem_map.mpr ⟨z, hz, rfl⟩))
          rw [getElem_qm_set_ne rs j z.1 (some tf) hne]
          exact hp z (by simp [hz]))
        (by
          intro i hi
          have hij : i ≠ j := by
            intro hEq
            subst hEq
            rw [getElem_qm_set_self rs i (some tf) hrl] at hi
            simp at hi
          rw [getElem_qm_set_ne rs j i (some tf) (fun hh => hij hh.symm)] at hi
          have hm := hcov i hi
          simp only [List.map_cons, List.mem_cons] at hm ⊢
          rcases hm with h1 | h2 | h3
          · exact absurd h1 hij
          · exact Or.inl h2
          · exact Or.inr h3)
      rw [ihx]
      simp [scriptFates]

/-- Reducing a bind over an ok value. -/
theorem bind_ok_eq {e a b : Type} (x : a) (g : a → Except e b) :
    ((Except.ok x : Except e a) >>= g) = g x := rfl

/-- C2: liftA over N fresh input cells, with any script of producer calls
that resolves distinct inputs one at a time in any order with any
outcomes.  While any input is still pending the result cell observes
PENDING (so the result resolves only after all N inputs are terminal and
never before, and never resolves failure); once the script has resolved
all N inputs, the result observes SUCCEEDED with the lifted function
applied to the data accessor of every input in input order, so a failed
input contributes its own errorToData fallback rather than a propagated
failure. -/
theorem liftA_fan_in (f : List Value → Value) (etds : List (Value → Value))
    (script : List (Nat × TermFate)) (fuel : Nat)
    (hN : 1 ≤ etds.length)
    (hnodup : (script.map Prod.fst).Nodup)
    (hbound : ∀ x ∈ script, x.1 < etds.length) :
    script.length ≤ etds.length ∧
    (script.length < etds.length →
      liftARun (fuel + 1 + 1) f etds script =
        .ok (etds.length, confHeap etds
          (scriptFates script (List.replicate etds.length none)) script.length f) ∧
      obsB (confHeap etds (scriptFates script (List.replicate etds.length none))
        script.length f) etds.length = some (.PENDING, none, none)) ∧
    (script.length = etds.length →
      liftARun (fuel + 1 + 1) f etds script =
        .ok (etds.length, doneHeap etds
          (scriptFates script (List.replicate etds.length none)) f) ∧
      obsB (doneHeap etds (scriptFates script (List.replicate etds.length none)) f)
        etds.length =
        some (.SUCCEEDED, some (f (List.zipWith inputDatum etds
          (scriptFates script (List.replicate etds.length none)))), none)) := by
  have hsub : (script.map Prod.fst).toFinset ⊆ Finset.range etds.length := by
    intro a ha
    simp only [List.mem_toFinset, List.mem_map] at ha
    obtain ⟨x, hx, rfl⟩ := ha
    exact Finset.mem_range.mpr (hbound x hx)
  have hlenle : script.length ≤ etds.length := by
    have h1 : (script.map Prod.fst).toFinset.card = script.length := by
      rw [List.toFinset_card_of_nodup hnodup, List.length_map]
    have h2 := Finset.card_le_card hsub
    rw [h1, Finset.card_range] at h2
    exact h2
  have hp0 : ∀ x ∈ script,
      (List.replicate etds.length (none : Option TermFate))[x.1]? = some none :=
    fun x hx => getElem_qm_replicate none etds.length x.1 (hbound x hx)
  have hlen0 : (List.replicate etds.length (none : Option TermFate)).length = etds.length := by
    simp
  refine ⟨hlenle, ?_, ?_⟩
  · intro hlt
    constructor
    · rw [liftARun]
      rw [liftA_setup etds f (fuel + 1)]
      simp only [bind_ok_eq]
      rw [applyScript_strict etds f script _ 0 fuel hlen0 (by omega) hnodup hp0]
      simp only [bind_ok_eq]
      simp
    · exact obs_conf etds _ script.length f (by rw [scriptFates_length, hlen0])
  · intro hfull
    have hne : script ≠ [] := by
      intro hnil
      rw [hnil] at hfull
      simp at hfull
      omega
    have hcov : ∀ i, (List.replicate etds.length (none : Option TermFate))[i]? = some none →
        i ∈ script.map Prod.fst := by
      intro i hi
      have hil : i < etds.length := by
        have h := getElem_qm_lt _ i none hi
        simpa using h
      have hcard : (script.map Prod.fst).toFinset.card = etds.length := by
        rw [List.toFinset_card_of_nodup hnodup, List.length_map, hfull]
      have heq : (script.map Prod.fst).toFinset = Finset.range etds.length :=
        Finset.eq_of_subset_of_card_le hsub (by rw [hcard, Finset.card_range])
      have hmem : i ∈ (script.map Prod.fst).toFinset := by
        rw [heq]
        exact Finset.mem_range.mpr hil
      simpa [List.mem_toFinset] using hmem
    constructor
    · rw [liftARun]
      rw [liftA_setup etds f (fuel + 1)]
      simp only [bind_ok_eq]
      rw [applyScript_full etds f script _ 0 fuel hne hlen0 (by omega) hnodup hp0 hcov]
      simp only [bind_ok_eq]
    · exact obs_done etds _ f (by rw [scriptFates_length, hlen0])

/-- The lifted function of the failure-masking scenario: null concatenated
with a string per host semantics. -/
def maskConcat : List Value → Value
  | [.vnull, .vstr s] => .vstr ("null" ++ s)
  | _ => .vnull

/-- Witness for C2 at the concrete failure-masking scenario of the spec:
two inputs, the first resolved failure with "boom" (default errorToData),
the second resolved success with "x"; the result resolves success with the
masked combination, not a failure. -/
theorem liftA_fan_in_witness :
    liftARun 12 maskConcat [defaultErrorToData, defaultErrorToData]
      [(0, .tfail (.vstr "boom")), (1, .tsucc (.vstr "x"))] =
      .ok (2, doneHeap [defaultErrorToData, defaultErrorToData]
        (scriptFates [(0, .tfail (.vstr "boom")), (1, .tsucc (.vstr "x"))]
          (List.replicate 2 none)) maskConcat) ∧
    obsB (doneHeap [defaultErrorToData, defaultErrorToData]
        (scriptFates [(0, .tfail (.vstr "boom")), (1, .tsucc (.vstr "x"))]
          (List.replicate 2 none)) maskConcat) 2 =
      some (.SUCCEEDED, some (.vstr "nullx"), none) := by
  have h := (liftA_fan_in maskConcat [defaultErrorToData, defaultErrorToData]
    [(0, .tfail (.vstr "boom")), (1, .tsucc (.vstr "x"))] 10
    (by decide) (by decide) (by decide)).2.2 rfl
  refine ⟨h.1, ?_⟩
  rfl

/-! ### Claim C5: monad laws for flatMap and unit

Cells are built by restricted programs: a leaf is a fresh cell whose fate
a producer decides directly (never resolved, resolved success, or resolved
failure), and bind is the flatMap of the source over a promise-returning
function.  An adequacy theorem computes the observation of every such
program from a pure fate function, and the three monad laws follow. -/

/-- Restricted cell-building programs for the monad laws. -/
inductive RProg where
  | leaf (fate : Fate)
  | bind (f : Value → RProg) (p : RProg)

/-- A leaf as a program over the module surface. -/
def injectFate : Fate → Prog
  | .fpending => .newPromise
  | .fsucc v => .unitP v
  | .ffail e => .failedP e

/-- Compile a restricted program to the combinator surface; bind is the
flatMap of the source. -/
def toProg : RProg → Prog
  | .leaf fate => injectFate fate
  | .bind f p => flatMapB (fun v => toProg (f v)) (toProg p)

/-- The fate of a restricted program: flatMap short-circuits pending and
failure, and chains the success value through the function. -/
def rfate : RProg → Fate
  | .leaf fate => fate
  | .bind f p =>
    match rfate p with
    | .fpending => .fpending
    | .ffail e => .ffail e
    | .fsucc v => rfate (f v)

/-- The observation a fate denotes. -/
def fateObs : Fate → PState × Option Value × Option Value
  | .fpending => (.PENDING, none, none)
  | .fsucc v => (.SUCCEEDED, some v, none)
  | .ffail e => (.FAILED, none, some e)

/-- A fresh cell resolved success. -/
def succCell (v : Value) : CellB :=
  { state := .SUCCEEDED, data := some v, error := none,
    succL := [], failL := [], finL := [], errorToData := defaultErrorToData }

/-- A fresh cell resolved failure. -/
def failCellB (e : Value) : CellB :=
  { state := .FAILED, data := none, error := some e,
    succL := [], failL := [], finL := [], errorToData := defaultErrorToData }

/-- Setting past the first part of an append. -/
theorem set_append_ge {α : Type} :
    ∀ (as bs : List α) (i : Nat) (v : α), as.length ≤ i →
    (as ++ bs).set i v = as ++ bs.set (i - as.length) v := by
  intro as
  induction as with
  | nil => intro bs i v h; simp
  | cons a as ih =>
    intro bs i v h
    cases i with
    | zero => simp at h
    | succ i =>
      simp only [List.cons_append, List.set_cons_succ, List.length_cons]
      rw [ih bs i v (by simpa using h)]
      simp [Nat.succ_sub_succ]

/-- The notify success entry with at least one unit of fuel. -/
theorem notifySuccessB_pred (fuel i : Nat) (d : Value) (h : Heap) (hf : 1 ≤ fuel) :
    notifySuccessB fuel i d h = (do
      let c ← getCellB h i
      if c.state ≠ .PENDING then .error .notPending
      else
        let h1 := setCellB h i { c with state := .SUCCEEDED, data := some d }
        let h2 ← runSListB (fuel - 1) c.succL d h1
        runFinListB (fuel - 1) c.finL .SUCCEEDED (some d) c.error h2) := by
  cases fuel with
  | zero => omega
  | succ n => rw [notifySuccessB]; simp

/-- The notify failure entry with at least one unit of fuel. -/
theorem notifyFailureB_pred (fuel i : Nat) (e : Value) (h : Heap) (hf : 1 ≤ fuel) :
    notifyFailureB fuel i e h = (do
      let c ← getCellB h i
      if c.state ≠ .PENDING then .error .notPending
      else
        let h1 := setCellB h i { c with state := .FAILED, error := some e }
        let h2 ← runFListB (fuel - 1) c.failL e h1
        runFinListB (fuel - 1) c.finL .FAILED c.data (some e) h2) := by
  cases fuel with
  | zero => omega
  | succ n => rw [notifyFailureB]; simp

/-- Success registration on a PENDING cell appends the closure. -/
theorem registerSucceedB_pending (fuel i : Nat) (l : SListener) (h : Heap) (c : CellB)
    (hf : 1 ≤ fuel) (hc : h.cells[i]? = some c) (hs : c.state = .PENDING) :
    registerSucceedB fuel i l h = .ok (setCellB h i { c with succL := c.succL ++ [l] }) := by
  cases fuel with
  | zero => omega
  | succ n => rw [registerSucceedB]; simp [getCellB, hc, hs, bind_ok_eq]

/-- Success registration on a SUCCEEDED cell runs the closure at once with
the stored data. -/
theorem registerSucceedB_succeeded (fuel i : Nat) (l : SListener) (h : Heap) (c : CellB)
    (hf : 1 ≤ fuel) (hc : h.cells[i]? = some c) (hs : c.state = .SUCCEEDED) :
    registerSucceedB fuel i l h = runSB (fuel - 1) l (c.data.getD .vnull) h := by
  cases fuel with
  | zero => omega
  | succ n => rw [registerSucceedB]; simp [getCellB, hc, hs, bind_ok_eq]

/-- Success registration on a FAILED cell does nothing. -/
theorem registerSucceedB_failed (fuel i : Nat) (l : SListener) (h : Heap) (c : CellB)
    (hf : 1 ≤ fuel) (hc : h.cells[i]? = some c) (hs : c.state = .FAILED) :
    registerSucceedB fuel i l h = .ok h := by
  cases fuel with
  | zero => omega
  | succ n => rw [registerSucceedB]; simp [getCellB, hc, hs, bind_ok_eq]

/-- Failure registration on a PENDING cell appends the closure. -/
theorem registerFailB_pending (fuel i : Nat) (l : FListener) (h : Heap) (c : CellB)
    (hf : 1 ≤ fuel) (hc : h.cells[i]? = some c) (hs : c.state = .PENDING) :
    registerFailB fuel i l h = .ok (setCellB h i { c with failL := c.failL ++ [l] }) := by
  cases fuel with
  | zero => omega
  | succ n => rw [registerFailB]; simp [getCellB, hc, hs, bind_ok_eq]

/-- Failure registration on a FAILED cell runs the closure at once with
the stored error. -/
theorem registerFailB_failed (fuel i : Nat) (l : FListener) (h : Heap) (c : CellB)
    (hf : 1 ≤ fuel) (hc : h.cells[i]? = some c) (hs : c.state = .FAILED) :
    registerFailB fuel i l h = runFB (fuel - 1) l (c.error.getD .vnull) h := by
  cases fuel with
  | zero => omega
  | succ n => rw [registerFailB]; simp [getCellB, hc, hs, bind_ok_eq]

/-- Failure registration on a SUCCEEDED cell does nothing. -/
theorem registerFailB_succeeded (fuel i : Nat) (l : FListener) (h : Heap) (c : CellB)
    (hf : 1 ≤ fuel) (hc : h.cells[i]? = some c) (hs : c.state = .SUCCEEDED) :
    registerFailB fuel i l h = .ok h := by
  cases fuel with
  | zero => omega
  | succ n => rw [registerFailB]; simp [getCellB, hc, hs, bind_ok_eq]

/-- Creating a cell with unit: the new cell is resolved success, nothing
else changes. -/
theorem unitOp_eval (fuel : Nat) (v : Value) (h : Heap) (hf : 1 ≤ fuel) :
    unitOpB fuel v h = .ok (h.cells.length, { h with cells := h.cells ++ [succCell v] }) := by
  rw [unitOpB]
  simp only [allocCellB, Bind.bind, Except.bind]
  rw [notifySuccessB_pred _ _ _ _ hf]
  simp only [getCellB, Bind.bind, Except.bind]
  rw [getElem_qm_append_len h.cells [freshCell defaultErrorToData]]
  simp only [List.getElem?_cons_zero, freshCell, ne_eq, reduceCtorEq, not_false_eq_true,
    not_true_eq_false, reduceIte, ite_false, ite_true, setCellB]
  simp [runSListB, runFinListB, succCell, freshCell, set_append_len]

/-- Creating a cell with a failing producer: the new cell is resolved
failure, nothing else changes. -/
theorem failedOp_eval (fuel : Nat) (e : Value) (h : Heap) (hf : 1 ≤ fuel) :
    failedOpB fuel e h = .ok (h.cells.length, { h with cells := h.cells ++ [failCellB e] }) := by
  rw [failedOpB]
  simp only [allocCellB, Bind.bind, Except.bind]
  rw [notifyFailureB_pred _ _ _ _ hf]
  simp only [getCellB, Bind.bind, Except.bind]
  rw [getElem_qm_append_len h.cells [freshCell defaultErrorToData]]
  simp only [List.getElem?_cons_zero, freshCell, ne_eq, reduceCtorEq, not_false_eq_true,
    not_true_eq_false, reduceIte, ite_false, ite_true, setCellB]
  simp [runFListB, runFinListB, failCellB, freshCell, set_append_len]

/-- Creating a pending cell with promise(). -/
theorem newPromise_eval (fuel : Nat) (h : Heap) :
    evalProg fuel .newPromise h =
      .ok (h.cells.length, { h with cells := h.cells ++ [freshCell defaultErrorToData] }) := by
  rw [evalProg]
  simp [allocCellB]


/-- The two applications flatMap performs (lines 319 to 321): the fmap
body on the input cell, then the join body on its result. -/
def flatMapApplyB (fuel : Nat) (fn : Value → Prog) (t : Nat) (h : Heap) :
    Except JSErr (Nat × Heap) := do
  let (r, h2) ← fmapApplyB fuel (.bindF fn) t h
  joinApplyB fuel r h2

/-- Evaluating a bind program is evaluating the inner program and then
running the flatMap wiring on its cell. -/
theorem evalProg_bind_decomp (F : Nat) (f : Value → RProg) (p : RProg) (h : Heap) :
    evalProg F (toProg (.bind f p)) h = (do
      let (t, h1) ← evalProg F (toProg p) h
      flatMapApplyB F (fun v => toProg (f v)) t h1) := by
  rw [toProg, flatMapB, evalProg, evalProg]
  cases hres : evalProg F (toProg p) h with
  | error e => simp [Bind.bind, Except.bind]
  | ok x => simp only [Bind.bind, Except.bind, flatMapApplyB]

/-- Appending one fresh cell, the heap effect of promise(). -/
def pushHeap (h : Heap) : Heap := { h with cells := h.cells ++ [freshCell defaultErrorToData] }

/-- Appending one cell resolved failure. -/
def pushFailedHeap (h : Heap) (e : Value) : Heap := { h with cells := h.cells ++ [failCellB e] }

/-- The cells of a push. -/
theorem pushHeap_cells (h : Heap) :
    (pushHeap h).cells = h.cells ++ [freshCell defaultErrorToData] := rfl

/-- The cells of a failed push. -/
theorem pushFailedHeap_cells (h : Heap) (e : Value) :
    (pushFailedHeap h e).cells = h.cells ++ [failCellB e] := rfl

/-- The cells of a cell replacement. -/
theorem setCellB_cells (h : Heap) (i : Nat) (c : CellB) :
    (setCellB h i c).cells = h.cells.set i c := rfl

/-- Allocation as a push. -/
theorem allocCellB_eq (h : Heap) : allocCellB h = (h.cells.length, pushHeap h) := rfl

/-- Setting the last position of a two-step append. -/
theorem set_snoc_succ {α : Type} (as : List α) (b c v : α) :
    ((as ++ [b]) ++ [c]).set (as.length + 1) v = (as ++ [b]) ++ [v] := by
  have hl : as.length + 1 = (as ++ [b]).length := by simp
  rw [hl, set_append_len]
  simp

/-- The input cell of fmap once both closures are registered on it. -/
def fmapWiredCell (c : CellB) (fn : FmapFn) (r : Nat) : CellB :=
  { c with succL := c.succL ++ [.fmapS fn r], failL := c.failL ++ [.fmapF r] }

/-- The fmap output cell once only the outer join success closure is on it. -/
def joinHalfWiredCell (t2 : Nat) : CellB :=
  { freshCell defaultErrorToData with succL := [.joinOuterS t2] }

/-- The fmap output cell once both outer join closures are registered on it. -/
def joinWiredCell (t2 : Nat) : CellB :=
  { freshCell defaultErrorToData with succL := [.joinOuterS t2], failL := [.joinOuterF t2] }

/-- The inner promise once both inner join closures are registered on it. -/
def joinInnerWiredCell (c : CellB) (t2 : Nat) : CellB :=
  { c with succL := c.succL ++ [.joinInnerS t2], failL := c.failL ++ [.joinInnerF t2] }

/-- The heap after the flatMap wiring over a pending input: the input
carries the two fmap closures, the fmap output carries the two outer join
closures, and the result cell is fresh. -/
def flatMapPendingHeap (h1 : Heap) (t : Nat) (ct : CellB) (fn : Value → Prog) : Heap :=
  setCellB (pushHeap (setCellB (pushHeap h1) t (fmapWiredCell ct (.bindF fn) h1.cells.length)))
    h1.cells.length (joinWiredCell (h1.cells.length + 1))

/-- The heap after the flatMap wiring over a failed input: the error
propagates through the fmap output into the result cell, both resolved
failure. -/
def flatMapFailedHeap (h1 : Heap) (e : Value) : Heap :=
  pushFailedHeap (pushFailedHeap h1 e) e

/-- The fmap application over a PENDING input cell: allocate the output
and store the two closures on the input. -/
theorem fmapApply_pending (F t : Nat) (h1 : Heap) (ct : CellB) (fn : Value → Prog)
    (hF : 1 ≤ F) (htlen : t < h1.cells.length)
    (hct : h1.cells[t]? = some ct) (hcs : ct.state = .PENDING) :
    fmapApplyB F (.bindF fn) t h1 =
      .ok (h1.cells.length, setCellB (pushHeap h1) t (fmapWiredCell ct (.bindF fn) h1.cells.length)) := by
  have hread1 : (pushHeap h1).cells[t]? = some ct := by
    rw [pushHeap_cells, getElem_qm_append_lt _ _ t htlen]; exact hct
  have hs1 := registerSucceedB_pending F t (.fmapS (.bindF fn) h1.cells.length) (pushHeap h1) ct hF hread1 hcs
  have hread2 : (setCellB (pushHeap h1) t ({ ct with succL := ct.succL ++ [SListener.fmapS (.bindF fn) h1.cells.length] } : CellB)).cells[t]? = some ({ ct with succL := ct.succL ++ [SListener.fmapS (.bindF fn) h1.cells.length] } : CellB) := by
    rw [setCellB_cells]
    exact getElem_qm_set_self _ t _ (by simp [pushHeap, freshCell]; omega)
  have hf1 := registerFailB_pending F t (.fmapF h1.cells.length) _ ({ ct with succL := ct.succL ++ [SListener.fmapS (.bindF fn) h1.cells.length] } : CellB) hF hread2 hcs
  rw [fmapApplyB]
  simp only [allocCellB_eq, bind_ok_eq, hs1, hf1]
  simp [setCellB, List.set_set, fmapWiredCell]

/-- The fmap application over a FAILED input cell: the error propagates at
registration time into the freshly allocated output. -/
theorem fmapApply_failed (F t : Nat) (h1 : Heap) (ct : CellB) (fn : Value → Prog) (e : Value)
    (hF : 2 ≤ F) (htlen : t < h1.cells.length)
    (hct : h1.cells[t]? = some ct) (hcs : ct.state = .FAILED) (hce : ct.error = some e) :
    fmapApplyB F (.bindF fn) t h1 = .ok (h1.cells.length, pushFailedHeap h1 e) := by
  have hread1 : (pushHeap h1).cells[t]? = some ct := by
    rw [pushHeap_cells, getElem_qm_append_lt _ _ t htlen]; exact hct
  have hreadr : (pushHeap h1).cells[h1.cells.length]? = some (freshCell defaultErrorToData) := by
    rw [pushHeap_cells, getElem_qm_append_len]; rfl
  rw [fmapApplyB]
  simp only [allocCellB_eq, bind_ok_eq]
  rw [registerSucceedB_failed F t _ _ ct (by omega) hread1 hcs]
  simp only [bind_ok_eq]
  rw [registerFailB_failed F t _ _ ct (by omega) hread1 hcs]
  rw [runFB, hce]
  simp only [Option.getD_some]
  rw [notifyFailureB_pred _ _ _ _ (by omega)]
  simp only [getCellB, hreadr, bind_ok_eq]
  simp only [freshCell, ne_eq, reduceCtorEq, not_false_eq_true, not_true_eq_false,
    reduceIte, ite_false, ite_true]
  simp only [runFListB, runFinListB, bind_ok_eq]
  simp [setCellB, pushHeap, pushFailedHeap, set_append_len, failCellB, freshCell]

/-- Two replacements at the same slot keep the second. -/
theorem setCellB_setCellB (h : Heap) (i : Nat) (a b : CellB) :
    setCellB (setCellB h i a) i b = setCellB h i b := by
  simp [setCellB, List.set_set]

/-- Appending one cell resolved success. -/
def pushSuccHeap (h : Heap) (v : Value) : Heap := { h with cells := h.cells ++ [succCell v] }

/-- The cells of a success push. -/
theorem pushSuccHeap_cells (h : Heap) (v : Value) :
    (pushSuccHeap h v).cells = h.cells ++ [succCell v] := rfl

/-- Overwriting the cell just pushed with a success cell. -/
theorem set_push_top_succ (h : Heap) (v : Value) :
    setCellB (pushHeap h) h.cells.length (succCell v) = pushSuccHeap h v := by
  simp [setCellB, pushHeap, pushSuccHeap, set_append_len]

/-- Overwriting the cell just pushed with a failure cell. -/
theorem set_push_top_fail (h : Heap) (e : Value) :
    setCellB (pushHeap h) h.cells.length (failCellB e) = pushFailedHeap h e := by
  simp [setCellB, pushHeap, pushFailedHeap, set_append_len]

/-- Recording one fmap argument in the instrumentation log. -/
@[reducible] def fLogPush (h : Heap) (v : Value) : Heap := { h with fLog := h.fLog ++ [v] }

/-- Registering the success closure then the failure closure on one
PENDING cell stores both on it, under any continuation. -/
theorem register_pair_pending_k {β : Type} (F i : Nat) (sl : SListener) (fl : FListener)
    (H : Heap) (c : CellB) (k : Heap → Except JSErr β)
    (hF : 1 ≤ F) (hi : i < H.cells.length) (hc : H.cells[i]? = some c)
    (hs : c.state = .PENDING) :
    (registerSucceedB F i sl H >>= fun h2 => registerFailB F i fl h2 >>= k) =
      k (setCellB H i { c with succL := c.succL ++ [sl], failL := c.failL ++ [fl] }) := by
  rw [registerSucceedB_pending F i sl H c hF hc hs]
  simp only [bind_ok_eq]
  rw [registerFailB_pending F i fl _ ({ c with succL := c.succL ++ [sl] } : CellB) hF
    (by rw [setCellB_cells]; exact getElem_qm_set_self _ i _ hi) hs]
  simp only [bind_ok_eq]
  rw [setCellB_setCellB]

/-- Resolving success a cell that is still exactly as promise() created
it: the cell flips to a success record and no listener runs. -/
theorem notifySuccess_fresh (F i : Nat) (d : Value) (H : Heap) (hF : 1 ≤ F)
    (hi : H.cells[i]? = some (freshCell defaultErrorToData)) :
    notifySuccessB F i d H = .ok (setCellB H i (succCell d)) := by
  rw [notifySuccessB_pred _ _ _ _ hF]
  simp only [getCellB, hi, bind_ok_eq]
  simp only [freshCell, ne_eq, reduceCtorEq, not_false_eq_true, not_true_eq_false,
    reduceIte, ite_false, ite_true]
  simp only [runSListB, runFinListB, bind_ok_eq]
  simp [setCellB, succCell]

/-- Resolving failure a cell that is still exactly as promise() created
it: the cell flips to a failure record and no listener runs. -/
theorem notifyFailure_fresh (F i : Nat) (e : Value) (H : Heap) (hF : 1 ≤ F)
    (hi : H.cells[i]? = some (freshCell defaultErrorToData)) :
    notifyFailureB F i e H = .ok (setCellB H i (failCellB e)) := by
  rw [notifyFailureB_pred _ _ _ _ hF]
  simp only [getCellB, hi, bind_ok_eq]
  simp only [freshCell, ne_eq, reduceCtorEq, not_false_eq_true, not_true_eq_false,
    reduceIte, ite_false, ite_true]
  simp only [runFListB, runFinListB, bind_ok_eq]
  simp [setCellB, failCellB]

/-- The outer join success closure on a cell reference subscribes the two
inner closures. -/
theorem runSB_joinOuterS_vcell (fuel t inner : Nat) (h : Heap) :
    runSB fuel (.joinOuterS t) (.vcell inner) h =
      (registerSucceedB fuel inner (.joinInnerS t) h >>= fun h1 =>
        registerFailB fuel inner (.joinInnerF t) h1) := by
  rw [runSB]

/-- The fmap success closure with a promise-returning function evaluates
the function's program on the data (logging the call) and resolves the
output with the built cell. -/
theorem runSB_fmapS_bindF (fuel r : Nat) (f : Value → Prog) (d : Value) (h : Heap) :
    runSB fuel (.fmapS (.bindF f) r) d h = (do
      let (q, h1) ← evalProg fuel (f d) (fLogPush h d)
      notifySuccessB fuel r (.vcell q) h1) := by
  rw [runSB]

/-- The join application over a still-fresh promise of promise: the two
outer closures are stored on it and the join result is a fresh cell. -/
theorem joinApply_fresh (F r : Nat) (H : Heap) (hF : 1 ≤ F) (hrlen : r < H.cells.length)
    (hr : H.cells[r]? = some (freshCell defaultErrorToData)) :
    joinApplyB F r H =
      .ok (H.cells.length, setCellB (pushHeap H) r (joinWiredCell H.cells.length)) := by
  have hread : (pushHeap H).cells[r]? = some (freshCell defaultErrorToData) := by
    rw [pushHeap_cells, getElem_qm_append_lt _ _ r hrlen]; exact hr
  rw [joinApplyB]
  simp only [allocCellB_eq, bind_ok_eq]
  rw [register_pair_pending_k F r _ _ _ (freshCell defaultErrorToData) _ hF
    (by simp [pushHeap]; omega) hread rfl]
  simp [joinWiredCell, freshCell]

/-- The join application over a failed promise of promise: the error
propagates at registration time into the freshly created join result. -/
theorem joinApply_failed (F r : Nat) (H : Heap) (e : Value) (hF : 2 ≤ F)
    (hrlen : r < H.cells.length) (hr : H.cells[r]? = some (failCellB e)) :
    joinApplyB F r H = .ok (H.cells.length, pushFailedHeap H e) := by
  have hread : (pushHeap H).cells[r]? = some (failCellB e) := by
    rw [pushHeap_cells, getElem_qm_append_lt _ _ r hrlen]; exact hr
  have hreadt : (pushHeap H).cells[H.cells.length]? = some (freshCell defaultErrorToData) := by
    rw [pushHeap_cells, getElem_qm_append_len]; rfl
  rw [joinApplyB]
  simp only [allocCellB_eq, bind_ok_eq]
  rw [registerSucceedB_failed F r _ _ (failCellB e) (by omega) hread rfl]
  simp only [bind_ok_eq]
  rw [registerFailB_failed F r _ _ (failCellB e) (by omega) hread rfl]
  rw [runFB]
  rw [show (failCellB e).error.getD Value.vnull = e from rfl]
  rw [notifyFailure_fresh (F - 1) H.cells.length e _ (by omega) hreadt]
  simp only [bind_ok_eq]
  rw [set_push_top_fail]

/-- The flatMap wiring over a PENDING input cell. -/
theorem flatMap_wiring_pending (F t : Nat) (h1 : Heap) (ct : CellB) (fn : Value → Prog)
    (hF : 2 ≤ F) (htlen : t < h1.cells.length)
    (hct : h1.cells[t]? = some ct) (hcs : ct.state = .PENDING) :
    flatMapApplyB F fn t h1 = .ok (h1.cells.length + 1, flatMapPendingHeap h1 t ct fn) := by
  rw [flatMapApplyB]
  rw [fmapApply_pending F t h1 ct fn (by omega) htlen hct hcs]
  simp only [bind_ok_eq]
  have hM : (setCellB (pushHeap h1) t (fmapWiredCell ct (.bindF fn) h1.cells.length)).cells.length = h1.cells.length + 1 := by
    simp [setCellB, pushHeap]
  have hMr : (setCellB (pushHeap h1) t (fmapWiredCell ct (.bindF fn) h1.cells.length)).cells[h1.cells.length]? = some (freshCell defaultErrorToData) := by
    rw [setCellB_cells, getElem_qm_set_ne _ t h1.cells.length _ (by omega), pushHeap_cells,
      getElem_qm_append_len]
    rfl
  rw [joinApply_fresh F h1.cells.length _ (by omega) (by omega) hMr]
  rw [hM, flatMapPendingHeap]

/-- The flatMap wiring over a FAILED input cell. -/
theorem flatMap_wiring_failed (F t : Nat) (h1 : Heap) (ct : CellB) (fn : Value → Prog)
    (e : Value) (hF : 2 ≤ F) (htlen : t < h1.cells.length)
    (hct : h1.cells[t]? = some ct) (hcs : ct.state = .FAILED) (hce : ct.error = some e) :
    flatMapApplyB F fn t h1 = .ok (h1.cells.length + 1, flatMapFailedHeap h1 e) := by
  rw [flatMapApplyB]
  rw [fmapApply_failed F t h1 ct fn e hF htlen hct hcs hce]
  simp only [bind_ok_eq]
  have hfl : (pushFailedHeap h1 e).cells.length = h1.cells.length + 1 := by
    simp [pushFailedHeap]
  have hfr : (pushFailedHeap h1 e).cells[h1.cells.length]? = some (failCellB e) := by
    rw [pushFailedHeap_cells, getElem_qm_append_len]; rfl
  rw [joinApply_failed F h1.cells.length _ e hF (by omega) hfr]
  rw [hfl, flatMapFailedHeap]

/-- Registering the success closure then the failure closure on one
PENDING cell stores both on it. -/
theorem register_pair_pending (F i : Nat) (sl : SListener) (fl : FListener)
    (H : Heap) (c : CellB)
    (hF : 1 ≤ F) (hi : i < H.cells.length) (hc : H.cells[i]? = some c)
    (hs : c.state = .PENDING) :
    (registerSucceedB F i sl H >>= fun h1 => registerFailB F i fl h1) =
      .ok (setCellB H i { c with succL := c.succL ++ [sl], failL := c.failL ++ [fl] }) := by
  rw [registerSucceedB_pending F i sl H c hF hc hs]
  simp only [bind_ok_eq]
  rw [registerFailB_pending F i fl _ ({ c with succL := c.succL ++ [sl] } : CellB) hF
    (by rw [setCellB_cells]; exact getElem_qm_set_self _ i _ hi) hs]
  rw [setCellB_setCellB]

/-- The fmap application over a SUCCEEDED input cell with a
promise-returning function: the function's program runs at registration
time on the stored data and the output resolves success with the built
cell. -/
theorem fmapApply_succ (F t q : Nat) (h1 h3 : Heap) (ct : CellB) (fn : Value → Prog) (v : Value)
    (hF : 2 ≤ F) (htlen : t < h1.cells.length)
    (hct : h1.cells[t]? = some ct) (hcs : ct.state = .SUCCEEDED) (hcd : ct.data = some v)
    (hev : evalProg (F - 1) (fn v) (fLogPush (pushHeap h1) v) = .ok (q, h3))
    (hr3 : h3.cells[h1.cells.length]? = some (freshCell defaultErrorToData))
    (ht3 : h3.cells[t]? = some ct) :
    fmapApplyB F (.bindF fn) t h1 =
      .ok (h1.cells.length, setCellB h3 h1.cells.length (succCell (.vcell q))) := by
  have hread1 : (pushHeap h1).cells[t]? = some ct := by
    rw [pushHeap_cells, getElem_qm_append_lt _ _ t htlen]; exact hct
  rw [fmapApplyB]
  simp only [allocCellB_eq, bind_ok_eq]
  rw [registerSucceedB_succeeded F t _ _ ct (by omega) hread1 hcs]
  rw [hcd]
  simp only [Option.getD_some]
  rw [runSB_fmapS_bindF]
  rw [hev]
  simp only [bind_ok_eq]
  rw [notifySuccess_fresh (F - 1) h1.cells.length (.vcell q) h3 (by omega) hr3]
  simp only [bind_ok_eq]
  have ht4 : (setCellB h3 h1.cells.length (succCell (.vcell q))).cells[t]? = some ct := by
    rw [setCellB_cells, getElem_qm_set_ne _ h1.cells.length t _ (by omega)]; exact ht3
  rw [registerFailB_succeeded F t _ _ ct (by omega) ht4 hcs]
  simp only [bind_ok_eq]

/-- The join application when the promise of promise already holds a cell
reference whose cell is PENDING: the two inner closures are stored on the
inner cell and the join result stays fresh. -/
theorem joinApply_succ_pending (F r q : Nat) (H : Heap) (cq : CellB)
    (hF : 2 ≤ F) (hrlen : r < H.cells.length)
    (hr : H.cells[r]? = some (succCell (.vcell q)))
    (hqlen : q < H.cells.length) (hq : H.cells[q]? = some cq)
    (hqr : q ≠ r) (hqs : cq.state = .PENDING) :
    joinApplyB F r H =
      .ok (H.cells.length, setCellB (pushHeap H) q (joinInnerWiredCell cq H.cells.length)) := by
  have hreadr : (pushHeap H).cells[r]? = some (succCell (.vcell q)) := by
    rw [pushHeap_cells, getElem_qm_append_lt _ _ r hrlen]; exact hr
  have hreadq : (pushHeap H).cells[q]? = some cq := by
    rw [pushHeap_cells, getElem_qm_append_lt _ _ q hqlen]; exact hq
  rw [joinApplyB]
  simp only [allocCellB_eq, bind_ok_eq]
  rw [registerSucceedB_succeeded F r _ _ (succCell (.vcell q)) (by omega) hreadr rfl]
  rw [show (succCell (Value.vcell q)).data.getD Value.vnull = Value.vcell q from rfl]
  rw [runSB_joinOuterS_vcell]
  rw [register_pair_pending (F - 1) q _ _ _ cq (by omega) (by simp [pushHeap]; omega) hreadq hqs]
  simp only [bind_ok_eq]
  rw [← joinInnerWiredCell]
  have hread4 : (setCellB (pushHeap H) q (joinInnerWiredCell cq H.cells.length)).cells[r]? = some (succCell (.vcell q)) := by
    rw [setCellB_cells, getElem_qm_set_ne _ q r _ hqr]; exact hreadr
  rw [registerFailB_succeeded F r _ _ (succCell (.vcell q)) (by omega) hread4 rfl]
  simp only [bind_ok_eq]

/-- The join application when the promise of promise holds a cell
reference whose cell is already SUCCEEDED: the join result resolves
success with the inner data at registration time. -/
theorem joinApply_succ_succ (F r q : Nat) (H : Heap) (cq : CellB) (w : Value)
    (hF : 3 ≤ F) (hrlen : r < H.cells.length)
    (hr : H.cells[r]? = some (succCell (.vcell q)))
    (hqlen : q < H.cells.length) (hq : H.cells[q]? = some cq)
    (hqs : cq.state = .SUCCEEDED) (hqd : cq.data = some w) :
    joinApplyB F r H = .ok (H.cells.length, pushSuccHeap H w) := by
  have hreadr : (pushHeap H).cells[r]? = some (succCell (.vcell q)) := by
    rw [pushHeap_cells, getElem_qm_append_lt _ _ r hrlen]; exact hr
  have hreadq : (pushHeap H).cells[q]? = some cq := by
    rw [pushHeap_cells, getElem_qm_append_lt _ _ q hqlen]; exact hq
  have hreadt : (pushHeap H).cells[H.cells.length]? = some (freshCell defaultErrorToData) := by
    rw [pushHeap_cells, getElem_qm_append_len]; rfl
  rw [joinApplyB]
  simp only [allocCellB_eq, bind_ok_eq]
  rw [registerSucceedB_succeeded F r _ _ (succCell (.vcell q)) (by omega) hreadr rfl]
  rw [show (succCell (Value.vcell q)).data.getD Value.vnull = Value.vcell q from rfl]
  rw [runSB_joinOuterS_vcell]
  rw [registerSucceedB_succeeded (F - 1) q _ _ cq (by omega) hreadq hqs]
  rw [hqd]
  simp only [Option.getD_some]
  rw [runSB]
  rw [notifySuccess_fresh (F - 1 - 1) H.cells.length w _ (by omega) hreadt]
  simp only [bind_ok_eq]
  rw [set_push_top_succ]
  have hq2 : (pushSuccHeap H w).cells[q]? = some cq := by
    rw [pushSuccHeap_cells, getElem_qm_append_lt _ _ q hqlen]; exact hq
  rw [registerFailB_succeeded (F - 1) q _ _ cq (by omega) hq2 hqs]
  simp only [bind_ok_eq]
  have hr2 : (pushSuccHeap H w).cells[r]? = some (succCell (.vcell q)) := by
    rw [pushSuccHeap_cells, getElem_qm_append_lt _ _ r hrlen]; exact hr
  rw [registerFailB_succeeded F r _ _ (succCell (.vcell q)) (by omega) hr2 rfl]
  simp only [bind_ok_eq]

/-- The join application when the promise of promise holds a cell
reference whose cell is already FAILED: the join result resolves failure
with the inner error at registration time. -/
theorem joinApply_succ_failed (F r q : Nat) (H : Heap) (cq : CellB) (e2 : Value)
    (hF : 3 ≤ F) (hrlen : r < H.cells.length)
    (hr : H.cells[r]? = some (succCell (.vcell q)))
    (hqlen : q < H.cells.length) (hq : H.cells[q]? = some cq)
    (hqs : cq.state = .FAILED) (hqe : cq.error = some e2) :
    joinApplyB F r H = .ok (H.cells.length, pushFailedHeap H e2) := by
  have hreadr : (pushHeap H).cells[r]? = some (succCell (.vcell q)) := by
    rw [pushHeap_cells, getElem_qm_append_lt _ _ r hrlen]; exact hr
  have hreadq : (pushHeap H).cells[q]? = some cq := by
    rw [pushHeap_cells, getElem_qm_append_lt _ _ q hqlen]; exact hq
  have hreadt : (pushHeap H).cells[H.cells.length]? = some (freshCell defaultErrorToData) := by
    rw [pushHeap_cells, getElem_qm_append_len]; rfl
  rw [joinApplyB]
  simp only [allocCellB_eq, bind_ok_eq]
  rw [registerSucceedB_succeeded F r _ _ (succCell (.vcell q)) (by omega) hreadr rfl]
  rw [show (succCell (Value.vcell q)).data.getD Value.vnull = Value.vcell q from rfl]
  rw [runSB_joinOuterS_vcell]
  rw [registerSucceedB_failed (F - 1) q _ _ cq (by omega) hreadq hqs]
  simp only [bind_ok_eq]
  rw [registerFailB_failed (F - 1) q _ _ cq (by omega) hreadq hqs]
  rw [runFB]
  rw [hqe]
  simp only [Option.getD_some]
  rw [notifyFailure_fresh (F - 1 - 1) H.cells.length e2 _ (by omega) hreadt]
  simp only [bind_ok_eq]
  rw [set_push_top_fail]
  have hr2 : (pushFailedHeap H e2).cells[r]? = some (succCell (.vcell q)) := by
    rw [pushFailedHeap_cells, getElem_qm_append_lt _ _ r hrlen]; exact hr
  rw [registerFailB_succeeded F r _ _ (succCell (.vcell q)) (by omega) hr2 rfl]
  simp only [bind_ok_eq]

/-- Pushing a fresh cell does not move existing cells. -/
theorem pushHeap_read_lt (h : Heap) (i : Nat) (hi : i < h.cells.length) :
    (pushHeap h).cells[i]? = h.cells[i]? := by
  rw [pushHeap_cells]; exact getElem_qm_append_lt _ _ i hi

/-- Pushing a success cell does not move existing cells. -/
theorem pushSuccHeap_read_lt (h : Heap) (v : Value) (i : Nat) (hi : i < h.cells.length) :
    (pushSuccHeap h v).cells[i]? = h.cells[i]? := by
  rw [pushSuccHeap_cells]; exact getElem_qm_append_lt _ _ i hi

/-- Pushing a failure cell does not move existing cells. -/
theorem pushFailedHeap_read_lt (h : Heap) (e : Value) (i : Nat) (hi : i < h.cells.length) :
    (pushFailedHeap h e).cells[i]? = h.cells[i]? := by
  rw [pushFailedHeap_cells]; exact getElem_qm_append_lt _ _ i hi

/-- Replacing one slot does not change the others. -/
theorem setCellB_read_ne (h : Heap) (j i : Nat) (c : CellB) (hne : j ≠ i) :
    (setCellB h j c).cells[i]? = h.cells[i]? := by
  rw [setCellB_cells]; exact getElem_qm_set_ne _ j i _ hne

/-- Reading the slot just replaced. -/
theorem setCellB_read_self (h : Heap) (j : Nat) (c : CellB) (hj : j < h.cells.length) :
    (setCellB h j c).cells[j]? = some c := by
  rw [setCellB_cells]; exact getElem_qm_set_self _ j _ hj

/-- The fresh cell sits at the old length. -/
theorem pushHeap_read_top (h : Heap) :
    (pushHeap h).cells[h.cells.length]? = some (freshCell defaultErrorToData) := by
  rw [pushHeap_cells, getElem_qm_append_len]; rfl

/-- The pushed success cell sits at the old length. -/
theorem pushSuccHeap_read_top (h : Heap) (v : Value) :
    (pushSuccHeap h v).cells[h.cells.length]? = some (succCell v) := by
  rw [pushSuccHeap_cells, getElem_qm_append_len]; rfl

/-- The pushed failure cell sits at the old length. -/
theorem pushFailedHeap_read_top (h : Heap) (e : Value) :
    (pushFailedHeap h e).cells[h.cells.length]? = some (failCellB e) := by
  rw [pushFailedHeap_cells, getElem_qm_append_len]; rfl

/-- Pushing a fresh cell grows the heap by one. -/
theorem pushHeap_length (h : Heap) : (pushHeap h).cells.length = h.cells.length + 1 := by
  simp [pushHeap]

/-- Pushing a success cell grows the heap by one. -/
theorem pushSuccHeap_length (h : Heap) (v : Value) :
    (pushSuccHeap h v).cells.length = h.cells.length + 1 := by
  simp [pushSuccHeap]

/-- Pushing a failure cell grows the heap by one. -/
theorem pushFailedHeap_length (h : Heap) (e : Value) :
    (pushFailedHeap h e).cells.length = h.cells.length + 1 := by
  simp [pushFailedHeap]

/-- Replacing a slot keeps the heap size. -/
theorem setCellB_length (h : Heap) (j : Nat) (c : CellB) :
    (setCellB h j c).cells.length = h.cells.length := by
  simp [setCellB]

/-- Adequacy of the restricted programs: running the compiled program on
any heap only appends cells (existing cells are untouched), returns a
fresh cell, and that cell observes exactly the denotational fate of the
program, for every fuel above a threshold. -/
theorem radequacy : ∀ (rp : RProg) (h : Heap), ∃ n c h2,
    (∀ F, n ≤ F → evalProg F (toProg rp) h = .ok (c, h2)) ∧
    (∀ i, i < h.cells.length → h2.cells[i]? = h.cells[i]?) ∧
    h.cells.length ≤ h2.cells.length ∧
    h.cells.length ≤ c ∧ c < h2.cells.length ∧
    obsB h2 c = some (fateObs (rfate rp)) := by
  intro rp
  induction rp with
  | leaf fate =>
    intro h
    cases fate with
    | fpending =>
      refine ⟨0, h.cells.length, pushHeap h, ?_, ?_, ?_, ?_, ?_, ?_⟩
      · intro F _
        rw [toProg, injectFate]
        exact newPromise_eval F h
      · intro i hi; exact pushHeap_read_lt h i hi
      · rw [pushHeap_length]; omega
      · exact Nat.le_refl _
      · rw [pushHeap_length]; omega
      · simp [obsB, pushHeap_read_top, rfate, fateObs, freshCell]
    | fsucc v =>
      refine ⟨1, h.cells.length, pushSuccHeap h v, ?_, ?_, ?_, ?_, ?_, ?_⟩
      · intro F hF
        rw [toProg, injectFate, evalProg]
        exact unitOp_eval F v h hF
      · intro i hi; exact pushSuccHeap_read_lt h v i hi
      · rw [pushSuccHeap_length]; omega
      · exact Nat.le_refl _
      · rw [pushSuccHeap_length]; omega
      · simp [obsB, pushSuccHeap_read_top, rfate, fateObs, succCell]
    | ffail e =>
      refine ⟨1, h.cells.length, pushFailedHeap h e, ?_, ?_, ?_, ?_, ?_, ?_⟩
      · intro F hF
        rw [toProg, injectFate, evalProg]
        exact failedOp_eval F e h hF
      · intro i hi; exact pushFailedHeap_read_lt h e i hi
      · rw [pushFailedHeap_length]; omega
      · exact Nat.le_refl _
      · rw [pushFailedHeap_length]; omega
      · simp [obsB, pushFailedHeap_read_top, rfate, fateObs, failCellB]
  | bind f p ihf ihp =>
    intro h
    obtain ⟨np, t, h1, hev1, hfr1, hlm1, hge1, hlt1, hobs1⟩ := ihp h
    simp only [obsB, Option.map_eq_some'] at hobs1
    obtain ⟨ct, hct, hcto⟩ := hobs1
    cases hfp : rfate p with
    | fpending =>
      rw [hfp] at hcto
      simp only [fateObs, Prod.mk.injEq] at hcto
      obtain ⟨hcs, hcd, hce⟩ := hcto
      refine ⟨np + 2, h1.cells.length + 1,
        flatMapPendingHeap h1 t ct (fun v => toProg (f v)), ?_, ?_, ?_, ?_, ?_, ?_⟩
      · intro F hF
        rw [evalProg_bind_decomp, hev1 F (by omega)]
        simp only [bind_ok_eq]
        exact flatMap_wiring_pending F t h1 ct _ (by omega) hlt1 hct hcs
      · intro i hi
        rw [flatMapPendingHeap]
        rw [setCellB_read_ne _ _ _ _ (by omega)]
        rw [pushHeap_read_lt _ _ (by rw [setCellB_length, pushHeap_length]; omega)]
        rw [setCellB_read_ne _ _ _ _ (by omega)]
        rw [pushHeap_read_lt _ _ (by omega)]
        exact hfr1 i hi
      · rw [flatMapPendingHeap, setCellB_length, pushHeap_length, setCellB_length,
          pushHeap_length]
        omega
      · omega
      · rw [flatMapPendingHeap, setCellB_length, pushHeap_length, setCellB_length,
          pushHeap_length]
        omega
      · have hread : (flatMapPendingHeap h1 t ct (fun v => toProg (f v))).cells[h1.cells.length + 1]? = some (freshCell defaultErrorToData) := by
          rw [flatMapPendingHeap]
          rw [setCellB_read_ne _ _ _ _ (by omega)]
          rw [show h1.cells.length + 1 = (setCellB (pushHeap h1) t (fmapWiredCell ct (FmapFn.bindF (fun v => toProg (f v))) h1.cells.length)).cells.length from by rw [setCellB_length, pushHeap_length]]
          exact pushHeap_read_top _
        simp [obsB, hread, rfate, hfp, fateObs, freshCell]
    | ffail e =>
      rw [hfp] at hcto
      simp only [fateObs, Prod.mk.injEq] at hcto
      obtain ⟨hcs, hcd, hce⟩ := hcto
      refine ⟨np + 2, h1.cells.length + 1, flatMapFailedHeap h1 e, ?_, ?_, ?_, ?_, ?_, ?_⟩
      · intro F hF
        rw [evalProg_bind_decomp, hev1 F (by omega)]
        simp only [bind_ok_eq]
        exact flatMap_wiring_failed F t h1 ct _ e (by omega) hlt1 hct hcs hce
      · intro i hi
        rw [flatMapFailedHeap]
        rw [pushFailedHeap_read_lt _ _ _ (by rw [pushFailedHeap_length]; omega)]
        rw [pushFailedHeap_read_lt _ _ _ (by omega)]
        exact hfr1 i hi
      · rw [flatMapFailedHeap, pushFailedHeap_length, pushFailedHeap_length]; omega
      · omega
      · rw [flatMapFailedHeap, pushFailedHeap_length, pushFailedHeap_length]; omega
      · have hread : (flatMapFailedHeap h1 e).cells[h1.cells.length + 1]? = some (failCellB e) := by
          rw [flatMapFailedHeap]
          rw [show h1.cells.length + 1 = (pushFailedHeap h1 e).cells.length from (pushFailedHeap_length h1 e).symm]
          exact pushFailedHeap_read_top _ _
        simp [obsB, hread, rfate, hfp, fateObs, failCellB]
    | fsucc v =>
      rw [hfp] at hcto
      simp only [fateObs, Prod.mk.injEq] at hcto
      obtain ⟨hcs, hcd, hce⟩ := hcto
      obtain ⟨nf, q, h3, hev3, hfr3, hlm3, hge3, hlt3, hobs3⟩ := ihf v (fLogPush (pushHeap h1) v)
      simp only [obsB, Option.map_eq_some'] at hobs3
      obtain ⟨cq, hcq, hcqo⟩ := hobs3
      have hLP : (fLogPush (pushHeap h1) v).cells.length = h1.cells.length + 1 := by
        simp [fLogPush, pushHeap]
      have hr3 : h3.cells[h1.cells.length]? = some (freshCell defaultErrorToData) := by
        rw [hfr3 h1.cells.length (by omega)]
        show (pushHeap h1).cells[h1.cells.length]? = some (freshCell defaultErrorToData)
        exact pushHeap_read_top h1
      have ht3 : h3.cells[t]? = some ct := by
        rw [hfr3 t (by omega)]
        show (pushHeap h1).cells[t]? = some ct
        rw [pushHeap_read_lt h1 t hlt1]
        exact hct
      have hq3len : h1.cells.length + 1 ≤ q := by omega
      have hr' : (setCellB h3 h1.cells.length (succCell (.vcell q))).cells[h1.cells.length]? = some (succCell (.vcell q)) :=
        setCellB_read_self _ _ _ (by omega)
      have hq' : (setCellB h3 h1.cells.length (succCell (.vcell q))).cells[q]? = some cq := by
        rw [setCellB_read_ne _ _ _ _ (by omega)]
        exact hcq
      cases hfv : rfate (f v) with
      | fpending =>
        rw [hfv] at hcqo
        simp only [fateObs, Prod.mk.injEq] at hcqo
        obtain ⟨hqs, hqd, hqe⟩ := hcqo
        refine ⟨np + nf + 4, h3.cells.length,
          setCellB (pushHeap (setCellB h3 h1.cells.length (succCell (.vcell q)))) q (joinInnerWiredCell cq h3.cells.length), ?_, ?_, ?_, ?_, ?_, ?_⟩
        · intro F hF
          rw [evalProg_bind_decomp, hev1 F (by omega)]
          simp only [bind_ok_eq]
          rw [flatMapApplyB]
          rw [fmapApply_succ F t q h1 h3 ct (fun v => toProg (f v)) v (by omega) hlt1 hct hcs hcd (hev3 (F - 1) (by omega)) hr3 ht3]
          simp only [bind_ok_eq]
          rw [joinApply_succ_pending F h1.cells.length q _ cq (by omega) (by rw [setCellB_length]; omega) hr' (by rw [setCellB_length]; omega) hq' (by omega) hqs]
          rw [setCellB_length]
        · intro i hi
          rw [setCellB_read_ne _ _ _ _ (by omega)]
          rw [pushHeap_read_lt _ _ (by rw [setCellB_length]; omega)]
          rw [setCellB_read_ne _ _ _ _ (by omega)]
          rw [hfr3 i (by omega)]
          show (pushHeap h1).cells[i]? = h.cells[i]?
          rw [pushHeap_read_lt _ _ (by omega)]
          exact hfr1 i hi
        · rw [setCellB_length, pushHeap_length, setCellB_length]; omega
        · omega
        · rw [setCellB_length, pushHeap_length, setCellB_length]; omega
        · have hreadtop : (setCellB (pushHeap (setCellB h3 h1.cells.length (succCell (.vcell q)))) q (joinInnerWiredCell cq h3.cells.length)).cells[h3.cells.length]? = some (freshCell defaultErrorToData) := by
            rw [setCellB_read_ne _ _ _ _ (by omega)]
            rw [show h3.cells.length = (setCellB h3 h1.cells.length (succCell (Value.vcell q))).cells.length from (setCellB_length _ _ _).symm]
            exact pushHeap_read_top _
          simp [obsB, hreadtop, rfate, hfp, hfv, fateObs, freshCell]
      | fsucc w =>
        rw [hfv] at hcqo
        simp only [fateObs, Prod.mk.injEq] at hcqo
        obtain ⟨hqs, hqd, hqe⟩ := hcqo
        refine ⟨np + nf + 4, h3.cells.length,
          pushSuccHeap (setCellB h3 h1.cells.length (succCell (.vcell q))) w, ?_, ?_, ?_, ?_, ?_, ?_⟩
        · intro F hF
          rw [evalProg_bind_decomp, hev1 F (by omega)]
          simp only [bind_ok_eq]
          rw [flatMapApplyB]
          rw [fmapApply_succ F t q h1 h3 ct (fun v => toProg (f v)) v (by omega) hlt1 hct hcs hcd (hev3 (F - 1) (by omega)) hr3 ht3]
          simp only [bind_ok_eq]
          rw [joinApply_succ_succ F h1.cells.length q _ cq w (by omega) (by rw [setCellB_length]; omega) hr' (by rw [setCellB_length]; omega) hq' hqs hqd]
          rw [setCellB_length]
        · intro i hi
          rw [pushSuccHeap_read_lt _ _ _ (by rw [setCellB_length]; omega)]
          rw [setCellB_read_ne _ _ _ _ (by omega)]
          rw [hfr3 i (by omega)]
          show (pushHeap h1).cells[i]? = h.cells[i]?
          rw [pushHeap_read_lt _ _ (by omega)]
          exact hfr1 i hi
        · rw [pushSuccHeap_length, setCellB_length]; omega
        · omega
        · rw [pushSuccHeap_length, setCellB_length]; omega
        · have hreadtop : (pushSuccHeap (setCellB h3 h1.cells.length (succCell (.vcell q))) w).cells[h3.cells.length]? = some (succCell w) := by
            rw [show h3.cells.length = (setCellB h3 h1.cells.length (succCell (Value.vcell q))).cells.length from (setCellB_length _ _ _).symm]
            exact pushSuccHeap_read_top _ _
          rw [obsB, hreadtop]
          simp [rfate, hfp, hfv, fateObs, succCell]
      | ffail e2 =>
        rw [hfv] at hcqo
        simp only [fateObs, Prod.mk.injEq] at hcqo
        obtain ⟨hqs, hqd, hqe⟩ := hcqo
        refine ⟨np + nf + 4, h3.cells.length,
          pushFailedHeap (setCellB h3 h1.cells.length (succCell (.vcell q))) e2, ?_, ?_, ?_, ?_, ?_, ?_⟩
        · intro F hF
          rw [evalProg_bind_decomp, hev1 F (by omega)]
          simp only [bind_ok_eq]
          rw [flatMapApplyB]
          rw [fmapApply_succ F t q h1 h3 ct (fun v => toProg (f v)) v (by omega) hlt1 hct hcs hcd (hev3 (F - 1) (by omega)) hr3 ht3]
          simp only [bind_ok_eq]
          rw [joinApply_succ_failed F h1.cells.length q _ cq e2 (by omega) (by rw [setCellB_length]; omega) hr' (by rw [setCellB_length]; omega) hq' hqs hqe]
          rw [setCellB_length]
        · intro i hi
          rw [pushFailedHeap_read_lt _ _ _ (by rw [setCellB_length]; omega)]
          rw [setCellB_read_ne _ _ _ _ (by omega)]
          rw [hfr3 i (by omega)]
          show (pushHeap h1).cells[i]? = h.cells[i]?
          rw [pushHeap_read_lt _ _ (by omega)]
          exact hfr1 i hi
        · rw [pushFailedHeap_length, setCellB_length]; omega
        · omega
        · rw [pushFailedHeap_length, setCellB_length]; omega
        · have hreadtop : (pushFailedHeap (setCellB h3 h1.cells.length (succCell (.vcell q))) e2).cells[h3.cells.length]? = some (failCellB e2) := by
            rw [show h3.cells.length = (setCellB h3 h1.cells.length (succCell (Value.vcell q))).cells.length from (setCellB_length _ _ _).symm]
            exact pushFailedHeap_read_top _ _
          simp [obsB, hreadtop, rfate, hfp, hfv, fateObs, failCellB]

/-- Observable outcome of a cell-building program run from the empty
heap: with enough fuel the run returns a cell whose state, data and error
observe as o. -/
def runsTo (pr : Prog) (o : PState × Option Value × Option Value) : Prop :=
  ∃ n c h2, (∀ F, n ≤ F → evalProg F pr emptyHeapB = .ok (c, h2)) ∧ obsB h2 c = some o

/-- Every restricted program runs to the observation of its fate. -/
theorem toProg_runsTo (rp : RProg) : runsTo (toProg rp) (fateObs (rfate rp)) := by
  obtain ⟨n, c, h2, hev, _, _, _, _, hobs⟩ := radequacy rp emptyHeapB
  exact ⟨n, c, h2, hev, hobs⟩

/-- The interpreter is deterministic above the fuel thresholds, so a
program runs to at most one observation. -/
theorem runsTo_unique (pr : Prog) (o1 o2 : PState × Option Value × Option Value)
    (h1 : runsTo pr o1) (h2 : runsTo pr o2) : o1 = o2 := by
  obtain ⟨n1, c1, h21, hev1, hobs1⟩ := h1
  obtain ⟨n2, c2, h22, hev2, hobs2⟩ := h2
  have he := (hev1 (n1 + n2) (by omega)).symm.trans (hev2 (n1 + n2) (by omega))
  have hc : c1 = c2 ∧ h21 = h22 := by simpa using he
  obtain ⟨hc1, hh⟩ := hc
  rw [hc1, hh] at hobs1
  exact Option.some.inj (hobs1.symm.trans hobs2)

/-- A restricted program runs exactly to the observation of its fate. -/
theorem runsTo_toProg_iff (rp : RProg) (o : PState × Option Value × Option Value) :
    runsTo (toProg rp) o ↔ o = fateObs (rfate rp) := by
  constructor
  · intro hr
    exact runsTo_unique (toProg rp) o (fateObs (rfate rp)) hr (toProg_runsTo rp)
  · intro he
    rw [he]
    exact toProg_runsTo rp

/-- Right identity at the level of fates. -/
theorem rfate_right_id (m : RProg) :
    rfate (.bind (fun v => .leaf (.fsucc v)) m) = rfate m := by
  cases hm : rfate m <;> simp [rfate, hm]

/-- Left identity at the level of fates. -/
theorem rfate_left_id (x : Value) (f : Value → RProg) :
    rfate (.bind f (.leaf (.fsucc x))) = rfate (f x) := by
  simp [rfate]

/-- Associativity at the level of fates. -/
theorem rfate_assoc (m : RProg) (f g : Value → RProg) :
    rfate (.bind g (.bind f m)) = rfate (.bind (fun v => .bind g (f v)) m) := by
  cases hm : rfate m <;> simp [rfate, hm]

/-- C5: flatMap (lines 315 to 324, the join of the fmap of the
promise-returning function) and unit (lines 201 to 205) satisfy the three
monad laws up to observable cell equality, that is equality of the final
state, data and error of the built cell: flatMap(unit)(m) behaves as m
(right identity), flatMap(f)(unit(x)) behaves as f(x) (left identity),
and flatMap(g)(flatMap(f)(m)) behaves as flatMap(x => flatMap(g)(f(x)))(m)
(associativity), for every cell-building program m, value x and
promise-returning functions f and g. -/
theorem monad_laws (m : RProg) (x : Value) (f g : Value → RProg) :
    (∀ o, runsTo (toProg (.bind (fun v => .leaf (.fsucc v)) m)) o ↔ runsTo (toProg m) o) ∧
    (∀ o, runsTo (toProg (.bind f (.leaf (.fsucc x)))) o ↔ runsTo (toProg (f x)) o) ∧
    (∀ o, runsTo (toProg (.bind g (.bind f m))) o ↔
      runsTo (toProg (.bind (fun v => .bind g (f v)) m)) o) := by
  refine ⟨fun o => ?_, fun o => ?_, fun o => ?_⟩
  · rw [runsTo_toProg_iff, runsTo_toProg_iff, rfate_right_id]
  · rw [runsTo_toProg_iff, runsTo_toProg_iff, rfate_left_id]
  · rw [runsTo_toProg_iff, runsTo_toProg_iff, rfate_assoc]
